import Mathlib

/-!
Verification of the harbourbridge schema/data conversion engine against its
natural-language specification.  The definitions below are shallow embeddings
of the Go code in `web/web.go` and in the postgres data-conversion file
(`ProcessSQLData` / `ConvertSQLRow` and their helpers).

Modelling conventions:
* Go `map[string]V` is modelled as an association list with first-match
  lookup (`lookupA`); a Go map read returns the zero value of `V` when the
  key is absent, modelled by `getA` with an explicit default; `insertA` and
  `eraseA` model map write and `delete`.
* Go `int64` is modelled as `Int`; where overflow matters the conversions
  `uint64OfInt` / `int64OfUInt64` / `wrap64` make the 2^64 wraparound
  explicit.  Go integer division truncates toward zero (`Int.tdiv`).
* Fallible Go code (`..., err` returns) is modelled with `Except`/`Option`.
* Functions called by the embedded code but defined in other packages of the
  repository (the dialect type mappers, the conversion helpers `convBool`,
  `convArray`, ..., and the `internal` package) are either passed as explicit
  function parameters (so every theorem quantifies over them) or modelled
  from the spec, as flagged in their doc comments.
-/

set_option autoImplicit false

/-! ### Association-list maps (Go `map[string]V`) -/

/-- First-match lookup in an association list (Go `v, ok := m[k]`). -/
def lookupA {α : Type} : List (String × α) → String → Option α
  | [], _ => none
  | (k, v) :: rest, key => if key = k then some v else lookupA rest key

/-- Go map read `m[k]` that yields the zero value `d` when the key is absent. -/
def getA {α : Type} (m : List (String × α)) (key : String) (d : α) : α :=
  (lookupA m key).getD d

/-- Go `delete(m, k)`. -/
def eraseA {α : Type} (m : List (String × α)) (key : String) : List (String × α) :=
  m.filter (fun p => p.1 ≠ key)

/-- Go map write `m[k] = v`. -/
def insertA {α : Type} (m : List (String × α)) (key : String) (v : α) : List (String × α) :=
  (key, v) :: eraseA m key

theorem eraseA_cons {α : Type} (k1 : String) (v1 : α) (rest : List (String × α)) (k : String) :
    eraseA ((k1, v1) :: rest) k = if k1 = k then eraseA rest k else (k1, v1) :: eraseA rest k := by
  by_cases h : k1 = k <;> simp [eraseA, h]

theorem lookupA_eraseA {α : Type} (m : List (String × α)) (k key : String) :
    lookupA (eraseA m k) key = if key = k then none else lookupA m key := by
  induction m with
  | nil => simp [eraseA, lookupA]
  | cons p rest ih =>
    rcases p with ⟨k1, v1⟩
    rw [eraseA_cons]
    by_cases h1 : k1 = k
    · by_cases h2 : key = k
      · subst h2
        simp [h1, ih]
      · have hne : ¬ key = k1 := fun hc => h2 (hc.trans h1)
        simp [h1, h2, ih, lookupA, hne]
    · by_cases h2 : key = k1
      · have hne : ¬ key = k := fun hc => h1 (h2.symm.trans hc)
        simp [h1, h2, lookupA, hne]
      · simp [h1, h2, lookupA, ih]

theorem lookupA_insertA {α : Type} (m : List (String × α)) (k key : String) (v : α) :
    lookupA (insertA m k v) key = if key = k then some v else lookupA m key := by
  by_cases h : key = k <;> simp [insertA, lookupA, h, lookupA_eraseA]

theorem eraseA_of_lookupA_none {α : Type} (m : List (String × α)) (k : String)
    (h : lookupA m k = none) : eraseA m k = m := by
  induction m with
  | nil => rfl
  | cons p rest ih =>
    rcases p with ⟨k1, v1⟩
    rw [eraseA_cons]
    by_cases h1 : k = k1
    · rw [lookupA, if_pos h1] at h
      exact absurd h (by simp)
    · rw [lookupA, if_neg h1] at h
      have hne : ¬ k1 = k := fun hc => h1 hc.symm
      rw [if_neg hne, ih h]

theorem eraseA_eraseA {α : Type} (m : List (String × α)) (k : String) :
    eraseA (eraseA m k) k = eraseA m k :=
  eraseA_of_lookupA_none _ _ (by rw [lookupA_eraseA]; simp)

theorem eraseA_insertA_self {α : Type} (m : List (String × α)) (k : String) (v : α) :
    eraseA (insertA m k v) k = eraseA m k := by
  rw [insertA, eraseA_cons, if_pos rfl, eraseA_eraseA]

theorem insertA_insertA_self {α : Type} (m : List (String × α)) (k : String) (v w : α) :
    insertA (insertA m k v) k w = insertA m k w := by
  rw [insertA, eraseA_insertA_self, insertA]

theorem mem_of_lookupA_eq_some {α : Type} (m : List (String × α)) (k : String) (v : α)
    (h : lookupA m k = some v) : (k, v) ∈ m := by
  induction m with
  | nil => simp [lookupA] at h
  | cons p rest ih =>
    rcases p with ⟨k1, v1⟩
    rw [lookupA] at h
    by_cases h1 : k = k1
    · rw [if_pos h1] at h
      simp only [Option.some.injEq] at h
      simp [h1, h]
    · rw [if_neg h1] at h
      exact List.mem_cons_of_mem _ (ih h)

/-! ### The fixed-width integer conversions used by the data pipeline -/

/-- Go `uint64(x)` for an `int64` value `x`: the value modulo 2^64. -/
def uint64OfInt (x : Int) : Nat := (x % (2 ^ 64 : Int)).toNat

/-- Go `int64(n)` for a `uint64` value `n`: two's-complement reinterpretation. -/
def int64OfUInt64 (n : Nat) : Int := if n < 2 ^ 63 then (n : Int) else (n : Int) - 2 ^ 64

/-- Reduce an unbounded integer to its `int64` value (two's complement). -/
def wrap64 (x : Int) : Int := int64OfUInt64 (uint64OfInt x)

/-- Go `int64` addition (wraps around at 2^63). -/
def int64Add (a b : Int) : Int := wrap64 (a + b)

theorem uint64OfInt_of_nonneg (x : Int) (h0 : 0 ≤ x) (hlt : x < 2 ^ 64) :
    (uint64OfInt x : Int) = x := by
  unfold uint64OfInt
  rw [Int.emod_eq_of_lt h0 (by exact_mod_cast hlt)]
  exact Int.toNat_of_nonneg h0

theorem wrap64_of_small (x : Int) (h0 : 0 ≤ x) (hlt : x < 2 ^ 63) : wrap64 x = x := by
  have hlt64 : x < 2 ^ 64 := lt_trans hlt (by norm_num)
  have hm : (uint64OfInt x : Int) = x := uint64OfInt_of_nonneg x h0 hlt64
  unfold wrap64 int64OfUInt64
  rw [if_pos (by exact_mod_cast hm ▸ (by exact_mod_cast hlt : x < ((2 ^ 63 : Nat) : Int)))]
  exact hm

theorem int64Add_one_of_small (a : Int) (h0 : 0 ≤ a) (hlt : a + 1 < 2 ^ 63) :
    int64Add a 1 = a + 1 :=
  wrap64_of_small (a + 1) (by omega) hlt

/-! ### Bit reversal (`math/bits.Reverse64`) -/

/-- Little-endian binary digits of `n`, width `w`. -/
def natBits : Nat → Nat → List Bool
  | _, 0 => []
  | n, w + 1 => decide (n % 2 = 1) :: natBits (n / 2) w

/-- Value of a little-endian digit list. -/
def bitsToNat : List Bool → Nat
  | [] => 0
  | b :: bs => (if b then 1 else 0) + 2 * bitsToNat bs

/-- `math/bits.Reverse64`: the value with the 64 bits of `n` in reversed order. -/
def reverse64 (n : Nat) : Nat := bitsToNat (natBits n 64).reverse

theorem natBits_length (n w : Nat) : (natBits n w).length = w := by
  induction w generalizing n with
  | zero => rfl
  | succ w ih => simp [natBits, ih]

theorem mod_two_pow_succ (x w : Nat) : x % 2 ^ (w + 1) = x % 2 + 2 * (x / 2 % 2 ^ w) := by
  have h2 : 2 ^ w * (x / 2 / 2 ^ w) + x / 2 % 2 ^ w = x / 2 := Nat.div_add_mod (x / 2) (2 ^ w)
  have hx : x = (x % 2 + 2 * (x / 2 % 2 ^ w)) + (2 * 2 ^ w) * (x / 2 / 2 ^ w) := by
    calc x = 2 * (x / 2) + x % 2 := by omega
    _ = 2 * (2 ^ w * (x / 2 / 2 ^ w) + x / 2 % 2 ^ w) + x % 2 := by rw [h2]
    _ = (x % 2 + 2 * (x / 2 % 2 ^ w)) + (2 * 2 ^ w) * (x / 2 / 2 ^ w) := by ring
  have hp : (0 : Nat) < 2 ^ w := Nat.pos_pow_of_pos w (by norm_num)
  have hlt : x % 2 + 2 * (x / 2 % 2 ^ w) < 2 * 2 ^ w := by
    have ha : x % 2 < 2 := Nat.mod_lt _ (by norm_num)
    have hb : x / 2 % 2 ^ w < 2 ^ w := Nat.mod_lt _ hp
    omega
  have hmod : x % (2 * 2 ^ w) = x % 2 + 2 * (x / 2 % 2 ^ w) := by
    conv_lhs => rw [hx]
    rw [Nat.add_mul_mod_self_left]
    exact Nat.mod_eq_of_lt hlt
  rw [pow_succ, mul_comm (2 ^ w) 2]
  exact hmod

theorem bitsToNat_natBits (w n : Nat) : bitsToNat (natBits n w) = n % 2 ^ w := by
  induction w generalizing n with
  | zero => simp [natBits, bitsToNat, Nat.mod_one]
  | succ w ih =>
    rw [natBits, bitsToNat, ih, mod_two_pow_succ]
    congr 1
    have : n % 2 = 0 ∨ n % 2 = 1 := by omega
    rcases this with h | h <;> simp [h]

theorem bitsToNat_lt (l : List Bool) : bitsToNat l < 2 ^ l.length := by
  induction l with
  | nil => simp [bitsToNat]
  | cons b bs ih =>
    rw [bitsToNat, List.length_cons, pow_succ]
    by_cases hb : b <;> simp [hb] <;> omega

theorem bitsToNat_inj (l1 l2 : List Bool) (hlen : l1.length = l2.length)
    (h : bitsToNat l1 = bitsToNat l2) : l1 = l2 := by
  induction l1 generalizing l2 with
  | nil => cases l2 with
    | nil => rfl
    | cons b bs => simp at hlen
  | cons b bs ih =>
    cases l2 with
    | nil => simp at hlen
    | cons c cs =>
      simp only [List.length_cons, Nat.succ.injEq] at hlen
      rw [bitsToNat, bitsToNat] at h
      have hbc : b = c ∧ bitsToNat bs = bitsToNat cs := by
        by_cases h1 : b <;> by_cases h2 : c <;> simp [h1, h2] at h ⊢ <;> omega
      rw [hbc.1, ih cs hlen hbc.2]

theorem reverse64_lt (n : Nat) : reverse64 n < 2 ^ 64 := by
  have h := bitsToNat_lt (natBits n 64).reverse
  rwa [List.length_reverse, natBits_length] at h

theorem reverse64_inj (a b : Nat) (ha : a < 2 ^ 64) (hb : b < 2 ^ 64)
    (h : reverse64 a = reverse64 b) : a = b := by
  have hlen : (natBits a 64).reverse.length = (natBits b 64).reverse.length := by
    simp [natBits_length]
  have hrev := bitsToNat_inj _ _ hlen h
  have hbits : natBits a 64 = natBits b 64 := by
    have := congrArg List.reverse hrev
    simpa using this
  have := congrArg bitsToNat hbits
  rw [bitsToNat_natBits, bitsToNat_natBits, Nat.mod_eq_of_lt ha, Nat.mod_eq_of_lt hb] at this
  exact this

theorem int64OfUInt64_inj (a b : Nat) (ha : a < 2 ^ 64) (hb : b < 2 ^ 64)
    (h : int64OfUInt64 a = int64OfUInt64 b) : a = b := by
  unfold int64OfUInt64 at h
  by_cases h1 : a < 2 ^ 63 <;> by_cases h2 : b < 2 ^ 63 <;>
    simp only [h1, h2, if_true, if_false, if_pos, if_neg, not_false_iff] at h <;> omega

/-! ### The Spanner-side (`ddl`) and source-side (`schema`) data model -/

/-- `ddl.IndexKey`: one primary-key entry (column name plus descending flag). -/
structure IndexKey where
  Col : String
  Desc : Bool
  deriving DecidableEq

instance : Inhabited IndexKey := ⟨⟨"", false⟩⟩

/-- `ddl.Foreignkey`: ordered local columns, referenced table, ordered
referenced columns (positions correspond). -/
structure Foreignkey where
  Name : String
  Columns : List String
  ReferTable : String
  ReferColumns : List String
  deriving DecidableEq

instance : Inhabited Foreignkey := ⟨⟨"", [], "", []⟩⟩

/-- `ddl.Type`: target type name, length modifier and array flag. -/
structure DdlType where
  Name : String
  Len : Int
  IsArray : Bool
  deriving DecidableEq

instance : Inhabited DdlType := ⟨⟨"", 0, false⟩⟩

/-- `ddl.String` (the name of the Spanner string type). -/
def ddlString : String := "STRING"

/-- `ddl.MaxLength`: the sentinel length meaning STRING(MAX) / unbounded
(`math.MaxInt64` in the ddl package, which is outside src/). -/
def MaxLength : Int := 9223372036854775807

/-- `ddl.ColumnDef`: a Spanner column definition. -/
structure ColumnDef where
  Name : String
  T : DdlType
  NotNull : Bool
  Comment : String
  deriving DecidableEq

instance : Inhabited ColumnDef := ⟨⟨"", default, false, ""⟩⟩

/-- `ddl.CreateTable` (the fields web.go manipulates). -/
structure CreateTable where
  Name : String
  ColNames : List String
  ColDefs : List (String × ColumnDef)
  Pks : List IndexKey
  Fks : List Foreignkey
  Parent : String
  deriving DecidableEq

instance : Inhabited CreateTable := ⟨⟨"", [], [], [], [], ""⟩⟩

/-- `schema.Type`: source type descriptor (name, modifiers, array bounds). -/
structure SchemaType where
  Name : String
  Mods : List Int
  ArrayBounds : List Int
  deriving DecidableEq

instance : Inhabited SchemaType := ⟨⟨"", [], []⟩⟩

/-- `schema.Ignored`: constraints recorded but not reproduced. -/
structure Ignored where
  Check : Bool
  ForeignKey : Bool
  AutoIncrement : Bool
  Default : Bool
  deriving DecidableEq

instance : Inhabited Ignored := ⟨⟨false, false, false, false⟩⟩

/-- `schema.Column` (the field `Type` of the Go struct is spelled `Ty` here
because `Type` is reserved in Lean). -/
structure Column where
  Name : String
  Ty : SchemaType
  NotNull : Bool
  Unique : Bool
  Ignored : Ignored
  deriving DecidableEq

instance : Inhabited Column := ⟨⟨"", default, false, false, default⟩⟩

/-- `internal.SchemaIssue`: issue tags; only the tags web.go manipulates are
named, the remaining enum values are `other`. -/
inductive SchemaIssue where
  | DefaultValue
  | AutoIncrement
  | MultiDimensionalArray
  | other (code : Nat)
  deriving DecidableEq

/-- `internal.SyntheticPKey`: generated key column plus sequence counter. -/
structure SyntheticPKey where
  Col : String
  Sequence : Int
  deriving DecidableEq

instance : Inhabited SyntheticPKey := ⟨⟨"", 0⟩⟩

/-! ### C1: the interleaving prefix check (`checkPrimaryKeyPrefix`) -/

/-- The loop of checkPrimaryKeyPrefix (web.go:599-603): walks the parent's
primary-key entries and returns false as soon as any ordinal position fails
the prefix conditions. `j` is the current index. -/
def pkPrefixLoop (childPks : List IndexKey) (fk : Foreignkey) : Nat → List IndexKey → Bool
  | _, [] => true
  | j, pk :: rest =>
    if fk.ReferColumns.length ≤ j ∨ pk.Col ≠ fk.ReferColumns.getD j "" ∨
        pk.Col ≠ (childPks.getD j default).Col ∨
        fk.Columns.getD j "" ≠ fk.ReferColumns.getD j "" then
      false
    else pkPrefixLoop childPks fk (j + 1) rest

/-- checkPrimaryKeyPrefix (web.go:595-608).  `spSchema` is `conv.SpSchema`;
the function reads the child's and the parent candidate's primary keys from
it.  Go's `fk.Columns[i]` indexing is modelled with `List.getD`; the code
relies on the foreign key's local and referenced column lists having equal
length (getForeignKey builds them in lockstep).  The `tableInterleaveIssues`
pointer parameter of the Go function is never used by its body and is
omitted. -/
def checkPrimaryKeyPrefix (spSchema : List (String × CreateTable))
    (table refTable : String) (fk : Foreignkey) : Bool :=
  let childPks := (getA spSchema table default).Pks
  let parentPks := (getA spSchema refTable default).Pks
  if parentPks.length ≤ childPks.length then pkPrefixLoop childPks fk 0 parentPks
  else false

theorem pkPrefixLoop_eq_true_iff (childPks : List IndexKey) (fk : Foreignkey)
    (rest : List IndexKey) : ∀ (j : Nat),
    pkPrefixLoop childPks fk j rest = true ↔
      ∀ i, i < rest.length →
        j + i < fk.ReferColumns.length ∧
        (rest.getD i default).Col = fk.ReferColumns.getD (j + i) "" ∧
        (rest.getD i default).Col = (childPks.getD (j + i) default).Col ∧
        fk.Columns.getD (j + i) "" = fk.ReferColumns.getD (j + i) "" := by
  induction rest with
  | nil => intro j; simp [pkPrefixLoop]
  | cons pk rest ih =>
    intro j
    rw [pkPrefixLoop]
    by_cases hbad : fk.ReferColumns.length ≤ j ∨ pk.Col ≠ fk.ReferColumns.getD j "" ∨
        pk.Col ≠ (childPks.getD j default).Col ∨
        fk.Columns.getD j "" ≠ fk.ReferColumns.getD j ""
    · rw [if_pos hbad]
      constructor
      · intro h
        exact absurd h (by simp)
      · intro hall
        exfalso
        have h0 := hall 0 (by simp)
        rw [Nat.add_zero] at h0
        simp only [List.getD_cons_zero] at h0
        obtain ⟨h1, h2, h3, h4⟩ := h0
        rcases hbad with h | h | h | h
        · omega
        · exact h h2
        · exact h h3
        · exact h h4
    · rw [if_neg hbad]
      push_neg at hbad
      obtain ⟨hlen, heq1, heq2, heq3⟩ := hbad
      rw [ih (j + 1)]
      constructor
      · intro h i hi
        cases i with
        | zero =>
          rw [Nat.add_zero]
          simp only [List.getD_cons_zero]
          exact ⟨by omega, heq1, heq2, heq3⟩
        | succ i =>
          have hi' : i < rest.length := by simpa using hi
          have hrec := h i hi'
          rw [show j + 1 + i = j + (i + 1) by omega] at hrec
          rw [List.getD_cons_succ]
          exact hrec
      · intro h i hi
        have hrec := h (i + 1) (by simp; omega)
        rw [show j + (i + 1) = j + 1 + i by omega] at hrec
        rw [List.getD_cons_succ] at hrec
        exact hrec

/-- **C1**: for a target table `table` with a foreign key `fk` to a parent
candidate `refTable`, the interleaving prefix check succeeds iff the child's
primary-key list is at least as long as the parent's and, at every ordinal
position `i` of the parent's primary key, (a) the parent's i-th primary-key
column equals the foreign key's i-th referenced column, (b) the child's i-th
primary-key column equals the foreign key's i-th local column, and (c) the
i-th local and referenced foreign-key columns are equal; a violation at any
single position makes the whole check false. -/
theorem checkPrimaryKeyPrefix_correct (spSchema : List (String × CreateTable))
    (table refTable : String) (fk : Foreignkey)
    (hfk : fk.Columns.length = fk.ReferColumns.length) :
    checkPrimaryKeyPrefix spSchema table refTable fk = true ↔
      ((getA spSchema refTable default).Pks.length ≤ (getA spSchema table default).Pks.length ∧
        ∀ i, i < (getA spSchema refTable default).Pks.length →
          i < fk.ReferColumns.length ∧
          ((getA spSchema refTable default).Pks.getD i default).Col = fk.ReferColumns.getD i "" ∧
          ((getA spSchema table default).Pks.getD i default).Col = fk.Columns.getD i "" ∧
          fk.Columns.getD i "" = fk.ReferColumns.getD i "") := by
  unfold checkPrimaryKeyPrefix
  set childPks := (getA spSchema table default).Pks with hchild
  set parentPks := (getA spSchema refTable default).Pks with hparent
  by_cases hlen : parentPks.length ≤ childPks.length
  · rw [if_pos hlen, pkPrefixLoop_eq_true_iff childPks fk parentPks 0]
    simp only [Nat.zero_add]
    constructor
    · intro h
      refine ⟨hlen, fun i hi => ?_⟩
      obtain ⟨h1, h2, h3, h4⟩ := h i hi
      exact ⟨h1, h2, by rw [← h3, h2, ← h4], h4⟩
    · intro h i hi
      obtain ⟨h1, h2, h3, h4⟩ := h.2 i hi
      exact ⟨h1, h2, by rw [h2, ← h4, ← h3], h4⟩
  · rw [if_neg hlen]
    constructor
    · intro h
      exact absurd h (by simp)
    · intro h
      exact absurd h.1 hlen

/-- Concrete schema for the C1 witness: child key (a,b,c), parent key (a,b),
foreign key (a,b) → (a,b). -/
def interleaveSpEx : List (String × CreateTable) :=
  [("Parent", { Name := "Parent", ColNames := ["a", "b"], ColDefs := [],
                Pks := [⟨"a", false⟩, ⟨"b", false⟩], Fks := [], Parent := "" }),
   ("Child", { Name := "Child", ColNames := ["a", "b", "c"], ColDefs := [],
               Pks := [⟨"a", false⟩, ⟨"b", false⟩, ⟨"c", false⟩], Fks := [], Parent := "" })]

def interleaveFkEx : Foreignkey := ⟨"fk1", ["a", "b"], "Parent", ["a", "b"]⟩

theorem checkPrimaryKeyPrefix_correct_witness :
    checkPrimaryKeyPrefix interleaveSpEx "Child" "Parent" interleaveFkEx = true :=
  (checkPrimaryKeyPrefix_correct interleaveSpEx "Child" "Parent" interleaveFkEx
    (by decide)).mpr (by decide)

/-! ### C10: the conversion-rate classifier (`rateSchema`) -/

/-- rateSchema (web.go:514-537).  Go `int64` division truncates toward zero,
which is `Int.tdiv`.  The local closures `good(total, badCount) =
badCount < total/20` and `ok(total, badCount) = badCount < total/3` are
inlined at their call sites. -/
def rateSchema (cols warnings : Int) (missingPKey : Bool) : String :=
  if cols = 0 then "GRAY"
  else if warnings = 0 ∧ missingPKey = false then "GREEN"
  else if warnings = 0 ∧ missingPKey = true then "BLUE"
  else if warnings < Int.tdiv cols 20 ∧ missingPKey = false then "BLUE"
  else if warnings < Int.tdiv cols 20 ∧ missingPKey = true then "BLUE"
  else if warnings < Int.tdiv cols 3 ∧ missingPKey = false then "YELLOW"
  else if warnings < Int.tdiv cols 3 ∧ missingPKey = true then "YELLOW"
  else if missingPKey = false then "RED"
  else "RED"

/-- The classifier exactly as claim C10 states it (reference definition for
the refinement statement; written from the claim's words, not the source). -/
def rateSchemaClaim (cols warnings : Int) (missingPKey : Bool) : String :=
  if cols = 0 then "GRAY"
  else if warnings = 0 ∧ missingPKey = false then "GREEN"
  else if (warnings = 0 ∧ missingPKey = true) ∨ warnings < Int.tdiv cols 20 then "BLUE"
  else if warnings < Int.tdiv cols 3 then "YELLOW"
  else "RED"

set_option maxHeartbeats 2000000 in
/-- **C10**: `rateSchema` is total into the five labels and agrees with the
claim's piecewise classifier for all `int64` inputs; the missing-primary-key
flag changes the result only when `warnings = 0`. -/
theorem rateSchema_correct :
    (∀ (cols warnings : Int) (missingPKey : Bool),
        rateSchema cols warnings missingPKey = rateSchemaClaim cols warnings missingPKey) ∧
    (∀ (cols warnings : Int) (missingPKey : Bool),
        rateSchema cols warnings missingPKey = "GRAY" ∨
        rateSchema cols warnings missingPKey = "GREEN" ∨
        rateSchema cols warnings missingPKey = "BLUE" ∨
        rateSchema cols warnings missingPKey = "YELLOW" ∨
        rateSchema cols warnings missingPKey = "RED") ∧
    (∀ (cols warnings : Int), warnings ≠ 0 →
        rateSchema cols warnings true = rateSchema cols warnings false) := by
  refine ⟨?_, ?_, ?_⟩
  · intro cols warnings missingPKey
    cases missingPKey <;>
      (unfold rateSchema rateSchemaClaim; split_ifs <;>
        first | rfl | tauto | linarith | simp_all)
  · intro cols warnings missingPKey
    unfold rateSchema
    split_ifs <;>
      first
        | exact Or.inl rfl
        | exact Or.inr (Or.inl rfl)
        | exact Or.inr (Or.inr (Or.inl rfl))
        | exact Or.inr (Or.inr (Or.inr (Or.inl rfl)))
        | exact Or.inr (Or.inr (Or.inr (Or.inr rfl)))
  · intro cols warnings hw
    unfold rateSchema
    split_ifs <;> first | rfl | tauto | linarith | simp_all

theorem rateSchema_correct_witness :
    rateSchema 100 7 true = rateSchema 100 7 false :=
  rateSchema_correct.2.2 100 7 (by norm_num)

/-! ### The column-edit operations of web.go (C2, C4, C7, C8)

`updateTableSchema` operates on one target table `table` and its source
table `srcTableName = conv.ToSource[table].Name`.  `EditModel` is the slice
of `internal.Conv` that the per-column edit operations read and write,
specialised to that pair of tables: the Spanner table (`conv.SpSchema[table]`),
the source table's column definitions (`conv.SrcSchema[srcTableName].ColDefs`),
the two per-table correspondence column maps (`conv.ToSource[table].Cols`
and `conv.ToSpanner[srcTableName].Cols`), the source table's issue map
(`conv.Issues[srcTableName]`) and the table's synthetic-key entry
(`conv.SyntheticPKeys[table]`).  No operation in web.go:317-512 touches any
other entry of those maps. -/

structure EditModel where
  sp : CreateTable
  srcColDefs : List (String × Column)
  toSourceCols : List (String × String)
  toSpannerCols : List (String × String)
  issues : List (String × List SchemaIssue)
  synth : Option SyntheticPKey
  deriving DecidableEq

instance : Inhabited EditModel := ⟨⟨default, [], [], [], [], none⟩⟩

/-- The `for i, col := range ... { if col == x { remove(slice, i); break } }`
pattern (web.go:319-324, 380-385): drop the first occurrence. -/
def removeFirstName (names : List String) (colName : String) : List String :=
  match names with
  | [] => []
  | n :: rest => if n = colName then rest else n :: removeFirstName rest colName

/-- Same pattern over primary-key entries (web.go:326-331, 387-392). -/
def removeFirstPk (pks : List IndexKey) (colName : String) : List IndexKey :=
  match pks with
  | [] => []
  | pk :: rest => if pk.Col = colName then rest else pk :: removeFirstPk rest colName

/-- `sp.ColNames[i] = newName; break` on the first match (web.go:340-345). -/
def renameFirstName (names : List String) (colName newName : String) : List String :=
  match names with
  | [] => []
  | n :: rest => if n = colName then newName :: rest else n :: renameFirstName rest colName newName

/-- `sp.Pks[i].Col = newName; break` on the first match (web.go:355-360). -/
def renameFirstPk (pks : List IndexKey) (colName newName : String) : List IndexKey :=
  match pks with
  | [] => []
  | pk :: rest =>
    if pk.Col = colName then { pk with Col := newName } :: rest
    else pk :: renameFirstPk rest colName newName

/-- removeColumn (web.go:317-337). -/
def removeColumn (m : EditModel) (colName : String) : EditModel :=
  let sp := m.sp
  let sp := { sp with ColNames := removeFirstName sp.ColNames colName }
  let sp := { sp with ColDefs := eraseA sp.ColDefs colName }
  let sp := { sp with Pks := removeFirstPk sp.Pks colName }
  let srcColName := getA m.toSourceCols colName ""
  { m with
    sp := sp
    toSourceCols := eraseA m.toSourceCols colName
    toSpannerCols := eraseA m.toSpannerCols srcColName
    issues := eraseA m.issues srcColName }

/-- renameColumn (web.go:338-366). -/
def renameColumn (m : EditModel) (newName colName : String) : EditModel :=
  let sp := m.sp
  let sp := { sp with ColNames := renameFirstName sp.ColNames colName newName }
  let sp :=
    match lookupA sp.ColDefs colName with
    | some cd =>
      { sp with ColDefs :=
          eraseA (insertA sp.ColDefs newName
            { Name := newName, T := cd.T, NotNull := cd.NotNull, Comment := cd.Comment }) colName }
    | none => sp
  let sp := { sp with Pks := renameFirstPk sp.Pks colName newName }
  let srcColName := getA m.toSourceCols colName ""
  { m with
    sp := sp
    toSpannerCols := insertA m.toSpannerCols srcColName newName
    toSourceCols := eraseA (insertA m.toSourceCols newName srcColName) colName }

/-- pkChanged (web.go:368-397).  Note that the "ADDED" branch retires a
synthetic key's column, definition and key entry, but keeps the
`SyntheticPKeys[table]` map entry itself, and then unconditionally appends
the new ascending key entry. -/
def pkChanged (m : EditModel) (pkChange colName : String) : EditModel :=
  let sp := m.sp
  let sp :=
    if pkChange = "REMOVED" then { sp with Pks := removeFirstPk sp.Pks colName } else sp
  if pkChange = "ADDED" then
    let sp :=
      match m.synth with
      | some sPk =>
        let sp := { sp with ColNames := removeFirstName sp.ColNames sPk.Col }
        let sp := { sp with ColDefs := eraseA sp.ColDefs sPk.Col }
        { sp with Pks := removeFirstPk sp.Pks sPk.Col }
      | none => sp
    { m with sp := { sp with Pks := sp.Pks ++ [{ Col := colName, Desc := false }] } }
  else { m with sp := sp }

/-- The pure computation inside updateType (web.go:403-427): map the source
column's type through the dialect mapper `toSpannerType`, override
multi-dimensional arrays to STRING(MAX) with the
`MultiDimensionalArray` issue, append the `DefaultValue` /
`AutoIncrement` issues when the source column carries those ignored
constraints, and set the array flag from the number of array bounds.
Returns the final Spanner type together with the issue list. -/
def updateTypeResult (toSpannerType : String → String → List Int → DdlType × List SchemaIssue)
    (srcCol : Column) (newType : String) : DdlType × List SchemaIssue :=
  let p := toSpannerType srcCol.Ty.Name newType srcCol.Ty.Mods
  let p2 :=
    if 1 < srcCol.Ty.ArrayBounds.length then
      (({ Name := ddlString, Len := MaxLength, IsArray := false } : DdlType),
        p.2 ++ [SchemaIssue.MultiDimensionalArray])
    else p
  let issues := if srcCol.Ignored.Default then p2.2 ++ [SchemaIssue.DefaultValue] else p2.2
  let issues :=
    if srcCol.Ignored.AutoIncrement then issues ++ [SchemaIssue.AutoIncrement] else issues
  ({ p2.1 with IsArray := srcCol.Ty.ArrayBounds.length = 1 }, issues)

/-- updateType (web.go:399-432).  `toSpannerType` stands for the dialect
type mapper (`toSpannerTypeMySQL` / `toSpannerTypePostgres`, defined in other
files of the web package): a pure function from the source type name, the
requested Spanner type and the source modifiers to a Spanner type plus
issues.  The source column is resolved through the `ToSource` correspondence
map; the issue list is written to the source column's entry of the issue map
only when nonempty; the target column's type is overwritten in place.  The
unsupported-driver branch (which reports an HTTP error and returns without
touching the model) is outside this embedding. -/
def updateType (toSpannerType : String → String → List Int → DdlType × List SchemaIssue)
    (m : EditModel) (newType newColName : String) : EditModel :=
  let sp := m.sp
  let srcColName := getA m.toSourceCols newColName ""
  let srcCol := getA m.srcColDefs srcColName default
  let r := updateTypeResult toSpannerType srcCol newType
  let m1 :=
    if 0 < r.2.length then { m with issues := insertA m.issues srcCol.Name r.2 } else m
  let colDef := getA sp.ColDefs newColName default
  { m1 with sp := { sp with ColDefs := insertA sp.ColDefs newColName { colDef with T := r.1 } } }

/-- updateNotNull (web.go:434-449). -/
def updateNotNull (m : EditModel) (notNullChange newColName : String) : EditModel :=
  let sp := m.sp
  if notNullChange = "ADDED" then
    let spColDef := getA sp.ColDefs newColName default
    { m with sp := { sp with ColDefs := insertA sp.ColDefs newColName { spColDef with NotNull := true } } }
  else if notNullChange = "REMOVED" then
    let spColDef := getA sp.ColDefs newColName default
    { m with sp := { sp with ColDefs := insertA sp.ColDefs newColName { spColDef with NotNull := false } } }
  else m

/-- `updateCol` (web.go:457-463): one column's requested edits. -/
structure UpdateCol where
  Removed : Bool
  Rename : String
  PK : String
  NotNull : String
  ToType : String
  deriving DecidableEq

/-- The per-column body of updateTableSchema's loop (web.go:489-507): the
fixed application order is remove, rename, primary-key toggle, retype,
not-null toggle, with the rename (when accepted) switching the working
column name to the new name for the later steps. -/
def applyColUpdate (toSpannerType : String → String → List Int → DdlType × List SchemaIssue)
    (m : EditModel) (colName : String) (v : UpdateCol) : EditModel :=
  if v.Removed then removeColumn m colName
  else
    let doRename := v.Rename ≠ "" ∧ v.Rename ≠ colName
    let newColName := if doRename then v.Rename else colName
    let m := if doRename then renameColumn m v.Rename colName else m
    let m := if v.PK ≠ "" then pkChanged m v.PK newColName else m
    let m := if v.ToType ≠ "" then updateType toSpannerType m v.ToType newColName else m
    let m := if v.NotNull ≠ "" then updateNotNull m v.NotNull newColName else m
    m

/-! ### C4: idempotence analysis of the column edits -/

theorem getA_insertA_self {α : Type} (m : List (String × α)) (k : String) (v : α) (d : α) :
    getA (insertA m k v) k d = v := by
  rw [getA, lookupA_insertA, if_pos rfl, Option.getD_some]

theorem getA_eraseA_self {α : Type} (m : List (String × α)) (k : String) (d : α) :
    getA (eraseA m k) k d = d := by
  rw [getA, lookupA_eraseA, if_pos rfl, Option.getD_none]

theorem removeFirstName_of_not_mem (l : List String) (c : String) (h : c ∉ l) :
    removeFirstName l c = l := by
  induction l with
  | nil => rfl
  | cons n rest ih =>
    rw [removeFirstName]
    have hn : ¬ n = c := fun hc => h (hc ▸ List.mem_cons_self n rest)
    rw [if_neg hn, ih (fun hc => h (List.mem_cons_of_mem n hc))]

theorem not_mem_removeFirstName (l : List String) (c : String) (h : l.count c ≤ 1) :
    c ∉ removeFirstName l c := by
  induction l with
  | nil => simp [removeFirstName]
  | cons n rest ih =>
    rw [removeFirstName]
    by_cases hn : n = c
    · rw [if_pos hn]
      subst hn
      have h0 : rest.count n = 0 := by
        rw [List.count_cons_self] at h
        omega
      exact (List.count_eq_zero).mp h0
    · rw [if_neg hn]
      intro hmem
      rcases List.mem_cons.mp hmem with hc | hc
      · exact hn hc.symm
      · have : rest.count c ≤ 1 := by
          rw [List.count_cons_of_ne (fun hcc => hn hcc.symm)] at h
          exact h
        exact ih this hc

theorem removeFirstName_idem (l : List String) (c : String) (h : l.count c ≤ 1) :
    removeFirstName (removeFirstName l c) c = removeFirstName l c :=
  removeFirstName_of_not_mem _ _ (not_mem_removeFirstName l c h)

theorem removeFirstPk_of_not_mem (pks : List IndexKey) (c : String)
    (h : ∀ pk ∈ pks, pk.Col ≠ c) : removeFirstPk pks c = pks := by
  induction pks with
  | nil => rfl
  | cons pk rest ih =>
    rw [removeFirstPk]
    rw [if_neg (h pk (List.mem_cons_self pk rest)), ih (fun q hq => h q (List.mem_cons_of_mem pk hq))]

theorem not_col_removeFirstPk (pks : List IndexKey) (c : String)
    (h : (pks.map IndexKey.Col).count c ≤ 1) :
    ∀ pk ∈ removeFirstPk pks c, pk.Col ≠ c := by
  induction pks with
  | nil => simp [removeFirstPk]
  | cons pk rest ih =>
    rw [removeFirstPk]
    by_cases hc : pk.Col = c
    · rw [if_pos hc]
      intro q hq hqc
      have h0 : (rest.map IndexKey.Col).count c = 0 := by
        rw [List.map_cons, hc, List.count_cons_self] at h
        omega
      have : q.Col ∈ rest.map IndexKey.Col := List.mem_map_of_mem IndexKey.Col hq
      rw [hqc] at this
      exact absurd this (List.count_eq_zero.mp h0)
    · rw [if_neg hc]
      intro q hq
      rcases List.mem_cons.mp hq with rfl | hq'
      · exact hc
      · have hr : (rest.map IndexKey.Col).count c ≤ 1 := by
          rw [List.map_cons, List.count_cons_of_ne (fun hcc => hc hcc.symm)] at h
          exact h
        exact ih hr q hq'

theorem removeFirstPk_idem (pks : List IndexKey) (c : String)
    (h : (pks.map IndexKey.Col).count c ≤ 1) :
    removeFirstPk (removeFirstPk pks c) c = removeFirstPk pks c :=
  removeFirstPk_of_not_mem _ _ (not_col_removeFirstPk pks c h)

/-- removeColumn applied twice removes no more than removeColumn applied
once, on models without duplicate column/key entries and without
empty-string keys in the backward map and issue map. -/
theorem removeColumn_idem (m : EditModel) (c : String)
    (h1 : m.sp.ColNames.count c ≤ 1)
    (h2 : (m.sp.Pks.map IndexKey.Col).count c ≤ 1)
    (h3 : lookupA m.toSpannerCols "" = none)
    (h4 : lookupA m.issues "" = none) :
    removeColumn (removeColumn m c) c = removeColumn m c := by
  unfold removeColumn
  simp only
  congr 1
  · congr 1
    · exact removeFirstName_idem _ _ h1
    · exact eraseA_eraseA _ _
    · exact removeFirstPk_idem _ _ h2
  · exact eraseA_eraseA _ _
  · rw [getA_eraseA_self]
    refine eraseA_of_lookupA_none _ _ ?_
    rw [lookupA_eraseA]
    split_ifs with hs
    · rfl
    · exact h3
  · rw [getA_eraseA_self]
    refine eraseA_of_lookupA_none _ _ ?_
    rw [lookupA_eraseA]
    split_ifs with hs
    · rfl
    · exact h4

theorem EditModel.ext_fields (a b : EditModel) (h1 : a.sp = b.sp)
    (h2 : a.srcColDefs = b.srcColDefs) (h3 : a.toSourceCols = b.toSourceCols)
    (h4 : a.toSpannerCols = b.toSpannerCols) (h5 : a.issues = b.issues)
    (h6 : a.synth = b.synth) : a = b := by
  cases a
  cases b
  simp_all

/-- The source column that updateType resolves through the correspondence
map. -/
def updateTypeSrcCol (m : EditModel) (c : String) : Column :=
  getA m.srcColDefs (getA m.toSourceCols c "") default

/-- The column definition that updateType writes back for the target column:
the previous definition with its type overwritten. -/
def updateTypeNewDef (f : String → String → List Int → DdlType × List SchemaIssue)
    (m : EditModel) (T c : String) : ColumnDef :=
  { getA m.sp.ColDefs c default with T := (updateTypeResult f (updateTypeSrcCol m c) T).1 }

/-- Field-wise characterisation of updateType's output. -/
theorem updateType_fields (f : String → String → List Int → DdlType × List SchemaIssue)
    (m : EditModel) (T c : String) :
    (updateType f m T c).toSourceCols = m.toSourceCols ∧
    (updateType f m T c).toSpannerCols = m.toSpannerCols ∧
    (updateType f m T c).synth = m.synth ∧
    (updateType f m T c).srcColDefs = m.srcColDefs ∧
    (updateType f m T c).sp =
      { m.sp with ColDefs := insertA m.sp.ColDefs c (updateTypeNewDef f m T c) } ∧
    (updateType f m T c).issues =
      (if 0 < (updateTypeResult f (updateTypeSrcCol m c) T).2.length
       then insertA m.issues (updateTypeSrcCol m c).Name
              (updateTypeResult f (updateTypeSrcCol m c) T).2
       else m.issues) := by
  unfold updateType updateTypeNewDef updateTypeSrcCol
  split_ifs with h <;> simp [h]

/-- updateType applied twice computes the same type and issues from the same
source column both times (the mapper is pure), so the second application
changes nothing. -/
theorem updateType_idem (f : String → String → List Int → DdlType × List SchemaIssue)
    (m : EditModel) (T c : String) :
    updateType f (updateType f m T c) T c = updateType f m T c := by
  obtain ⟨hts, htp, hsy, hsd, hsp, hiss⟩ := updateType_fields f m T c
  obtain ⟨hts2, htp2, hsy2, hsd2, hsp2, hiss2⟩ := updateType_fields f (updateType f m T c) T c
  have hsrc : updateTypeSrcCol (updateType f m T c) c = updateTypeSrcCol m c := by
    unfold updateTypeSrcCol
    rw [hts, hsd]
  have hcd : (updateType f m T c).sp.ColDefs = insertA m.sp.ColDefs c (updateTypeNewDef f m T c) := by
    rw [hsp]
  have hdef : updateTypeNewDef f (updateType f m T c) T c = updateTypeNewDef f m T c := by
    unfold updateTypeNewDef
    rw [hsrc, hcd, getA_insertA_self]
    unfold updateTypeNewDef
    rfl
  apply EditModel.ext_fields
  · rw [hsp2, hdef, hcd, insertA_insertA_self, hsp]
  · rw [hsd2, hsd]
  · rw [hts2, hts]
  · rw [htp2, htp]
  · rw [hiss2, hsrc, hiss]
    split_ifs with h
    · rw [insertA_insertA_self]
    · rfl
  · rw [hsy2, hsy]

theorem updateNotNull_added_eq (m : EditModel) (c : String) :
    updateNotNull m "ADDED" c = { m with sp := { m.sp with
      ColDefs := insertA m.sp.ColDefs c { getA m.sp.ColDefs c default with NotNull := true } } } := by
  simp [updateNotNull]

theorem updateNotNull_removed_eq (m : EditModel) (c : String) :
    updateNotNull m "REMOVED" c = { m with sp := { m.sp with
      ColDefs := insertA m.sp.ColDefs c { getA m.sp.ColDefs c default with NotNull := false } } } := by
  simp [updateNotNull]

theorem updateNotNull_idem (m : EditModel) (nn c : String) :
    updateNotNull (updateNotNull m nn c) nn c = updateNotNull m nn c := by
  by_cases h1 : nn = "ADDED"
  · subst h1
    rw [updateNotNull_added_eq, updateNotNull_added_eq]
    apply EditModel.ext_fields <;> simp [getA_insertA_self, insertA_insertA_self]
  · by_cases h2 : nn = "REMOVED"
    · subst h2
      rw [updateNotNull_removed_eq, updateNotNull_removed_eq]
      apply EditModel.ext_fields <;> simp [getA_insertA_self, insertA_insertA_self]
    · rw [updateNotNull, if_neg h1, if_neg h2, updateNotNull, if_neg h1, if_neg h2]

theorem pkChanged_removed_eq (m : EditModel) (c : String) :
    pkChanged m "REMOVED" c = { m with sp := { m.sp with Pks := removeFirstPk m.sp.Pks c } } := by
  simp [pkChanged]

theorem pkChanged_removed_idem (m : EditModel) (c : String)
    (h : (m.sp.Pks.map IndexKey.Col).count c ≤ 1) :
    pkChanged (pkChanged m "REMOVED" c) "REMOVED" c = pkChanged m "REMOVED" c := by
  rw [pkChanged_removed_eq, pkChanged_removed_eq]
  apply EditModel.ext_fields <;> simp [removeFirstPk_idem _ _ h]

/-- A second rename request keyed by the new name (renaming y to y) is
rejected by the `v.Rename != colName` guard and the whole edit is a no-op. -/
theorem applyColUpdate_rename_noop (f : String → String → List Int → DdlType × List SchemaIssue)
    (m : EditModel) (y : String) :
    applyColUpdate f m y ⟨false, y, "", "", ""⟩ = m := by
  simp [applyColUpdate]

/-- A concrete model for the C4 counterexample and witness. -/
def idemModelEx : EditModel :=
  { sp := { Name := "t1", ColNames := ["c"],
            ColDefs := [("c", ⟨"c", ⟨"INT64", 0, false⟩, false, ""⟩)],
            Pks := [], Fks := [], Parent := "" },
    srcColDefs := [("c0", ⟨"c0", ⟨"bigint", [], []⟩, false, false, default⟩)],
    toSourceCols := [("c", "c0")],
    toSpannerCols := [("c0", "c")],
    issues := [],
    synth := none }

/-- A stand-in dialect mapper used for concrete evaluation. -/
def trivialMapper : String → String → List Int → DdlType × List SchemaIssue :=
  fun _ spType _ => (⟨spType, 0, false⟩, [])

/-- **C4 counterexample**: the primary-key "ADDED" edit is not idempotent:
applying the same `{PK: "ADDED"}` record twice appends the key column twice,
so the model after two applications differs from the model after one. -/
theorem pkAdded_twice_not_idempotent :
    applyColUpdate trivialMapper
        (applyColUpdate trivialMapper idemModelEx "c" ⟨false, "", "ADDED", "", ""⟩)
        "c" ⟨false, "", "ADDED", "", ""⟩ ≠
      applyColUpdate trivialMapper idemModelEx "c" ⟨false, "", "ADDED", "", ""⟩ := by
  decide

/-- **C4 (amended)**: the remove, rename, retype and not-null edits are
independently idempotent (remove on well-formed models: no duplicate
column-name or key entries for the column and no empty-string keys in the
backward correspondence and issue maps; a replayed rename is keyed by the new
name and is a no-op), and the primary-key "REMOVED" toggle is idempotent;
the primary-key "ADDED" toggle is not idempotent — a second application
appends a duplicate key entry (see the counterexample). -/
theorem columnEdits_idempotent_amended :
    (∀ (f : String → String → List Int → DdlType × List SchemaIssue) (m : EditModel)
        (c : String) (v : UpdateCol), v.Removed = true →
        m.sp.ColNames.count c ≤ 1 →
        (m.sp.Pks.map IndexKey.Col).count c ≤ 1 →
        lookupA m.toSpannerCols "" = none →
        lookupA m.issues "" = none →
        applyColUpdate f (applyColUpdate f m c v) c v = applyColUpdate f m c v) ∧
    (∀ (f : String → String → List Int → DdlType × List SchemaIssue) (m : EditModel)
        (x y : String),
        applyColUpdate f (applyColUpdate f m x ⟨false, y, "", "", ""⟩) y ⟨false, y, "", "", ""⟩ =
          applyColUpdate f m x ⟨false, y, "", "", ""⟩) ∧
    (∀ (f : String → String → List Int → DdlType × List SchemaIssue) (m : EditModel)
        (c : String), (m.sp.Pks.map IndexKey.Col).count c ≤ 1 →
        applyColUpdate f (applyColUpdate f m c ⟨false, "", "REMOVED", "", ""⟩) c
            ⟨false, "", "REMOVED", "", ""⟩ =
          applyColUpdate f m c ⟨false, "", "REMOVED", "", ""⟩) ∧
    (∀ (f : String → String → List Int → DdlType × List SchemaIssue) (m : EditModel)
        (c T : String),
        applyColUpdate f (applyColUpdate f m c ⟨false, "", "", "", T⟩) c ⟨false, "", "", "", T⟩ =
          applyColUpdate f m c ⟨false, "", "", "", T⟩) ∧
    (∀ (f : String → String → List Int → DdlType × List SchemaIssue) (m : EditModel)
        (c nn : String),
        applyColUpdate f (applyColUpdate f m c ⟨false, "", "", nn, ""⟩) c ⟨false, "", "", nn, ""⟩ =
          applyColUpdate f m c ⟨false, "", "", nn, ""⟩) := by
  refine ⟨?_, ?_, ?_, ?_, ?_⟩
  · intro f m c v hv h1 h2 h3 h4
    have he : ∀ (mm : EditModel), applyColUpdate f mm c v = removeColumn mm c := by
      intro mm
      simp [applyColUpdate, hv]
    simp only [he]
    exact removeColumn_idem m c h1 h2 h3 h4
  · intro f m x y
    exact applyColUpdate_rename_noop f _ y
  · intro f m c h
    have he : ∀ (mm : EditModel),
        applyColUpdate f mm c ⟨false, "", "REMOVED", "", ""⟩ = pkChanged mm "REMOVED" c := by
      intro mm
      simp [applyColUpdate]
    simp only [he]
    exact pkChanged_removed_idem m c h
  · intro f m c T
    by_cases hT : T = ""
    · subst hT
      have he : ∀ (mm : EditModel), applyColUpdate f mm c ⟨false, "", "", "", ""⟩ = mm := by
        intro mm
        simp [applyColUpdate]
      simp only [he]
    · have he : ∀ (mm : EditModel),
          applyColUpdate f mm c ⟨false, "", "", "", T⟩ = updateType f mm T c := by
        intro mm
        simp [applyColUpdate, hT]
      simp only [he]
      exact updateType_idem f m T c
  · intro f m c nn
    by_cases hn : nn = ""
    · subst hn
      have he : ∀ (mm : EditModel), applyColUpdate f mm c ⟨false, "", "", "", ""⟩ = mm := by
        intro mm
        simp [applyColUpdate]
      simp only [he]
    · have he : ∀ (mm : EditModel),
          applyColUpdate f mm c ⟨false, "", "", nn, ""⟩ = updateNotNull mm nn c := by
        intro mm
        simp [applyColUpdate, hn]
      simp only [he]
      exact updateNotNull_idem m nn c

theorem columnEdits_idempotent_amended_witness :
    applyColUpdate trivialMapper
        (applyColUpdate trivialMapper idemModelEx "c" ⟨true, "", "", "", ""⟩)
        "c" ⟨true, "", "", "", ""⟩ =
      applyColUpdate trivialMapper idemModelEx "c" ⟨true, "", "", "", ""⟩ :=
  columnEdits_idempotent_amended.1 trivialMapper idemModelEx "c" ⟨true, "", "", "", ""⟩ rfl
    (by decide) (by decide) (by decide) (by decide)

/-! ### C2: the correspondence maps under remove/rename edits -/

/-- The mutual-inverse invariant of the two per-table correspondence column
maps (`ToSource[table].Cols` and `ToSpanner[srcTableName].Cols`): every entry
of either map round-trips through the other. -/
def MutualInverse (L R : List (String × String)) : Prop :=
  ∀ c s, lookupA L c = some s ↔ lookupA R s = some c

/-- Executable check of `MutualInverse` for concrete maps. -/
def mutualInverseChk (L R : List (String × String)) : Bool :=
  L.all (fun p => lookupA R p.2 == some p.1) && R.all (fun p => lookupA L p.2 == some p.1)

theorem mutualInverse_of_chk (L R : List (String × String))
    (h : mutualInverseChk L R = true) : MutualInverse L R := by
  rw [mutualInverseChk, Bool.and_eq_true, List.all_eq_true, List.all_eq_true] at h
  obtain ⟨h1, h2⟩ := h
  intro c s
  constructor
  · intro hl
    have hm := mem_of_lookupA_eq_some L c s hl
    simpa using h1 (c, s) hm
  · intro hr
    have hm := mem_of_lookupA_eq_some R s c hr
    simpa using h2 (s, c) hm

/-- Deleting a present pair from both maps preserves mutual inverseness. -/
theorem mutualInverse_erase (L R : List (String × String)) (c s : String)
    (hinv : MutualInverse L R) (hc : lookupA L c = some s) :
    MutualInverse (eraseA L c) (eraseA R s) := by
  intro c' s'
  rw [lookupA_eraseA, lookupA_eraseA]
  by_cases h1 : c' = c
  · subst h1
    rw [if_pos rfl]
    constructor
    · intro h
      exact absurd h (by simp)
    · intro h
      exfalso
      by_cases h2 : s' = s
      · rw [if_pos h2] at h
        exact absurd h (by simp)
      · rw [if_neg h2] at h
        have hL := (hinv c' s').mpr h
        rw [hL] at hc
        exact h2 (Option.some.inj hc)
  · rw [if_neg h1]
    by_cases h2 : s' = s
    · subst h2
      rw [if_pos rfl]
      constructor
      · intro h
        exfalso
        have ha := (hinv c' s').mp h
        have hb := (hinv c s').mp hc
        rw [ha] at hb
        exact h1 (Option.some.inj hb)
      · intro h
        exact absurd h (by simp)
    · rw [if_neg h2]
      exact hinv c' s'

/-- Renaming a present column to a fresh name, updating both maps the way
renameColumn does, preserves mutual inverseness. -/
theorem mutualInverse_rename (L R : List (String × String)) (c n s : String)
    (hinv : MutualInverse L R) (hc : lookupA L c = some s) (hn : lookupA L n = none) :
    MutualInverse (eraseA (insertA L n s) c) (insertA R s n) := by
  have hnc : ¬ n = c := fun h => by rw [h, hc] at hn; cases hn
  intro c' s'
  rw [lookupA_eraseA, lookupA_insertA, lookupA_insertA]
  by_cases h1 : c' = c
  · subst h1
    rw [if_pos rfl]
    constructor
    · intro h
      exact absurd h (by simp)
    · intro h
      exfalso
      by_cases h2 : s' = s
      · rw [if_pos h2] at h
        exact hnc (Option.some.inj h)
      · rw [if_neg h2] at h
        have hL := (hinv c' s').mpr h
        rw [hL] at hc
        exact h2 (Option.some.inj hc)
  · rw [if_neg h1]
    by_cases h3 : c' = n
    · subst h3
      rw [if_pos rfl]
      constructor
      · intro h
        have hss : s' = s := (Option.some.inj h).symm
        rw [if_pos hss]
      · intro h
        by_cases h2 : s' = s
        · rw [h2]
        · exfalso
          rw [if_neg h2] at h
          have hLn := (hinv c' s').mpr h
          rw [hLn] at hn
          cases hn
    · rw [if_neg h3]
      by_cases h2 : s' = s
      · subst h2
        rw [if_pos rfl]
        constructor
        · intro h
          exfalso
          have ha := (hinv c' s').mp h
          have hb := (hinv c s').mp hc
          rw [ha] at hb
          exact h1 (Option.some.inj hb)
        · intro h
          exact absurd (Option.some.inj h) (fun hx => h3 hx.symm)
      · rw [if_neg h2]
        exact hinv c' s'

/-- A remove or rename edit, as updateTableSchema dispatches them. -/
inductive ColEditOp where
  | removeOp (colName : String)
  | renameOp (newName colName : String)
  deriving DecidableEq

def applyColEditOp (m : EditModel) : ColEditOp → EditModel
  | .removeOp c => removeColumn m c
  | .renameOp n c => renameColumn m n c

def applyColEditOps (m : EditModel) (ops : List ColEditOp) : EditModel :=
  ops.foldl applyColEditOp m

/-- Precondition chain for a sequence of edits: each removed or renamed
column is present in the `ToSource` column map when its edit runs, and each
rename's new name is not already a target column there. -/
def editOpsOKb : EditModel → List ColEditOp → Bool
  | _, [] => true
  | m, op :: rest =>
    (match op with
     | .removeOp c => (lookupA m.toSourceCols c).isSome
     | .renameOp n c => (lookupA m.toSourceCols c).isSome && (lookupA m.toSourceCols n).isNone) &&
    editOpsOKb (applyColEditOp m op) rest

/-- **C2 (amended)**: after any sequence of remove/rename column edits in
which every edited column is present in the `ToSource` column map and every
rename target name is fresh, the `ToSource` and `ToSpanner` column maps
remain exact mutual inverses (each edit updates both directions together).
Without the freshness condition the invariant can break — see the
counterexample. -/
theorem editOps_preserve_mutualInverse (ops : List ColEditOp) (m : EditModel)
    (hinv : MutualInverse m.toSourceCols m.toSpannerCols)
    (hok : editOpsOKb m ops = true) :
    MutualInverse (applyColEditOps m ops).toSourceCols (applyColEditOps m ops).toSpannerCols := by
  induction ops generalizing m with
  | nil => exact hinv
  | cons op rest ih =>
    have hstep : applyColEditOps m (op :: rest) = applyColEditOps (applyColEditOp m op) rest := rfl
    rw [hstep]
    cases op with
    | removeOp c =>
      rw [editOpsOKb, Bool.and_eq_true] at hok
      refine ih (applyColEditOp m (ColEditOp.removeOp c)) ?_ hok.2
      have hop := hok.1
      have hs : ∃ s, lookupA m.toSourceCols c = some s := by
        cases hl : lookupA m.toSourceCols c with
        | none => rw [hl] at hop; cases hop
        | some s => exact ⟨s, rfl⟩
      obtain ⟨s, hs⟩ := hs
      show MutualInverse (removeColumn m c).toSourceCols (removeColumn m c).toSpannerCols
      have h1 : (removeColumn m c).toSourceCols = eraseA m.toSourceCols c := rfl
      have h2 : (removeColumn m c).toSpannerCols =
          eraseA m.toSpannerCols (getA m.toSourceCols c "") := rfl
      rw [h1, h2, getA, hs, Option.getD_some]
      exact mutualInverse_erase _ _ c s hinv hs
    | renameOp n c =>
      rw [editOpsOKb, Bool.and_eq_true] at hok
      refine ih (applyColEditOp m (ColEditOp.renameOp n c)) ?_ hok.2
      have hop := hok.1
      rw [Bool.and_eq_true] at hop
      have hs : ∃ s, lookupA m.toSourceCols c = some s := by
        cases hl : lookupA m.toSourceCols c with
        | none => rw [hl] at hop; rcases hop with ⟨hx, _⟩; cases hx
        | some s => exact ⟨s, rfl⟩
      obtain ⟨s, hs⟩ := hs
      have hn : lookupA m.toSourceCols n = none := by
        rcases hop with ⟨_, hx⟩
        exact Option.isNone_iff_eq_none.mp hx
      show MutualInverse (renameColumn m n c).toSourceCols (renameColumn m n c).toSpannerCols
      have h1 : (renameColumn m n c).toSourceCols =
          eraseA (insertA m.toSourceCols n (getA m.toSourceCols c "")) c := rfl
      have h2 : (renameColumn m n c).toSpannerCols =
          insertA m.toSpannerCols (getA m.toSourceCols c "") n := rfl
      rw [h1, h2, getA, hs, Option.getD_some]
      exact mutualInverse_rename _ _ c n s hinv hs hn

/-- A concrete model for the C2 counterexample and witness. -/
def corrModelEx : EditModel :=
  { sp := { Name := "t", ColNames := ["x", "y"], ColDefs := [], Pks := [], Fks := [], Parent := "" },
    srcColDefs := [],
    toSourceCols := [("x", "sx"), ("y", "sy")],
    toSpannerCols := [("sx", "x"), ("sy", "y")],
    issues := [],
    synth := none }

/-- **C2 counterexample**: renaming column x to the already-present target
name y (a single rename edit) breaks the mutual-inverse invariant: after the
edit, ToSpanner maps sy to y but ToSource maps y back to sx. -/
theorem renameCollision_breaks_mutualInverse :
    MutualInverse corrModelEx.toSourceCols corrModelEx.toSpannerCols ∧
    ¬ MutualInverse (applyColEditOps corrModelEx [ColEditOp.renameOp "y" "x"]).toSourceCols
        (applyColEditOps corrModelEx [ColEditOp.renameOp "y" "x"]).toSpannerCols := by
  constructor
  · exact mutualInverse_of_chk _ _ (by decide)
  · intro h
    have h1 : lookupA
        (applyColEditOps corrModelEx [ColEditOp.renameOp "y" "x"]).toSpannerCols "sy" =
        some "y" := by decide
    have h2 := (h "y" "sy").mpr h1
    have h3 : lookupA
        (applyColEditOps corrModelEx [ColEditOp.renameOp "y" "x"]).toSourceCols "y" =
        some "sx" := by decide
    rw [h2] at h3
    exact absurd h3 (by decide)

theorem editOps_preserve_mutualInverse_witness :
    MutualInverse
      (applyColEditOps corrModelEx
        [ColEditOp.renameOp "z" "x", ColEditOp.removeOp "z"]).toSourceCols
      (applyColEditOps corrModelEx
        [ColEditOp.renameOp "z" "x", ColEditOp.removeOp "z"]).toSpannerCols :=
  editOps_preserve_mutualInverse [ColEditOp.renameOp "z" "x", ColEditOp.removeOp "z"]
    corrModelEx (mutualInverse_of_chk _ _ (by decide)) (by decide)

/-! ### C7, C8: retype behaviour (per-column and global) -/

/-- STRING(MAX), non-array: the forced target type for multi-dimensional
array source columns. -/
def stringMax : DdlType := { Name := ddlString, Len := MaxLength, IsArray := false }

/-- For a source column with more than one array bound, the type/issue
computation shared by updateType and setTypeMapGlobal forces STRING(MAX)
with the array flag false and appends the multi-dimensional-array issue. -/
theorem updateTypeResult_multiDim (f : String → String → List Int → DdlType × List SchemaIssue)
    (srcCol : Column) (T : String) (h : 1 < srcCol.Ty.ArrayBounds.length) :
    (updateTypeResult f srcCol T).1 = stringMax ∧
    SchemaIssue.MultiDimensionalArray ∈ (updateTypeResult f srcCol T).2 := by
  have hne : srcCol.Ty.ArrayBounds.length ≠ 1 := by omega
  constructor
  · simp [updateTypeResult, stringMax, h, hne]
  · simp only [updateTypeResult, h, if_true]
    split_ifs <;> simp

/-- The per-column body of setTypeMapGlobal's loop (web.go:270-305): when the
source column's type name is in the request's map, recompute the Spanner
type from the source column (the computation is literally the same as
updateType's, `updateTypeResult`) and overwrite the column definition's
type in place; `none` means the column is not touched.  The returned issue
list is what the loop writes to `Issues[sourceTable][srcCol.Name]` when it
is nonempty. -/
def setTypeMapGlobalCol (toSpannerType : String → String → List Int → DdlType × List SchemaIssue)
    (typeMap : List (String × String)) (srcCol : Column) (colDef : ColumnDef) :
    Option (ColumnDef × List SchemaIssue) :=
  match lookupA typeMap srcCol.Ty.Name with
  | none => none
  | some newType =>
    let r := updateTypeResult toSpannerType srcCol newType
    some ({ colDef with T := r.1 }, r.2)

/-- **C7**: retyping a source column that has more than one array bound —
via the per-column retype (updateType) or via the global type-map update
(setTypeMapGlobal) — always produces the target type STRING with unbounded
length and array flag false, and records the multi-dimensional-array issue
for that source column; it never produces an array target type. -/
theorem multiDimArray_retype_to_string :
    (∀ (f : String → String → List Int → DdlType × List SchemaIssue) (m : EditModel)
        (T c s : String) (srcCol : Column),
        lookupA m.toSourceCols c = some s →
        lookupA m.srcColDefs s = some srcCol →
        1 < srcCol.Ty.ArrayBounds.length →
        lookupA (updateType f m T c).sp.ColDefs c =
            some ({ getA m.sp.ColDefs c default with T := stringMax }) ∧
          ∃ iss, lookupA (updateType f m T c).issues srcCol.Name = some iss ∧
            SchemaIssue.MultiDimensionalArray ∈ iss) ∧
    (∀ (f : String → String → List Int → DdlType × List SchemaIssue)
        (typeMap : List (String × String)) (srcCol : Column) (colDef : ColumnDef)
        (newType : String),
        lookupA typeMap srcCol.Ty.Name = some newType →
        1 < srcCol.Ty.ArrayBounds.length →
        ∃ iss, setTypeMapGlobalCol f typeMap srcCol colDef =
            some ({ colDef with T := stringMax }, iss) ∧
          SchemaIssue.MultiDimensionalArray ∈ iss) := by
  constructor
  · intro f m T c s srcCol hs hsc hb
    obtain ⟨hts, htp, hsy, hsd, hsp, hiss⟩ := updateType_fields f m T c
    have hsrc : updateTypeSrcCol m c = srcCol := by
      unfold updateTypeSrcCol getA
      rw [hs, Option.getD_some, hsc, Option.getD_some]
    rw [hsrc] at hiss
    obtain ⟨hr1, hr2⟩ := updateTypeResult_multiDim f srcCol T hb
    constructor
    · have hcd : (updateType f m T c).sp.ColDefs =
          insertA m.sp.ColDefs c (updateTypeNewDef f m T c) := by
        rw [hsp]
      rw [hcd, lookupA_insertA, if_pos rfl]
      unfold updateTypeNewDef
      rw [hsrc, hr1]
    · have hlen : 0 < (updateTypeResult f srcCol T).2.length :=
        List.length_pos.mpr (List.ne_nil_of_mem hr2)
      refine ⟨(updateTypeResult f srcCol T).2, ?_, hr2⟩
      rw [hiss, if_pos hlen, lookupA_insertA, if_pos rfl]
  · intro f typeMap srcCol colDef newType hmap hb
    obtain ⟨hr1, hr2⟩ := updateTypeResult_multiDim f srcCol newType hb
    refine ⟨(updateTypeResult f srcCol newType).2, ?_, hr2⟩
    unfold setTypeMapGlobalCol
    rw [hmap]
    simp only [Option.some.injEq]
    rw [hr1]

/-- A concrete model with a multi-dimensional-array source column for the C7
witness. -/
def multiDimModelEx : EditModel :=
  { sp := { Name := "t2", ColNames := ["a"],
            ColDefs := [("a", ⟨"a", ⟨"INT64", 0, false⟩, false, ""⟩)],
            Pks := [], Fks := [], Parent := "" },
    srcColDefs := [("a0", ⟨"a0", ⟨"integer", [], [-1, -1]⟩, false, false, default⟩)],
    toSourceCols := [("a", "a0")],
    toSpannerCols := [("a0", "a")],
    issues := [],
    synth := none }

theorem multiDimArray_retype_to_string_witness :
    lookupA (updateType trivialMapper multiDimModelEx "STRING" "a").sp.ColDefs "a" =
      some ({ getA multiDimModelEx.sp.ColDefs "a" default with T := stringMax }) :=
  (multiDimArray_retype_to_string.1 trivialMapper multiDimModelEx "STRING" "a" "a0"
    ⟨"a0", ⟨"integer", [], [-1, -1]⟩, false, false, default⟩
    (by decide) (by decide) (by decide)).1

/-- **C8**: a retype edit (here combined with a rename in the same batch,
the order updateTableSchema applies) computes the new target type by calling
the dialect mapper on the original source column's type name and modifiers
(`updateTypeResult f srcCol T` is a function of the source column only,
never of the already-converted target type), resolved through the ToSource
map so that the renamed column still resolves to the same source column; the
issue list is re-attached to the source column's issue entry (when
nonempty), and the target column's definition keeps its name, not-null flag
and comment with only the type overwritten in place. -/
theorem retype_uses_source_type
    (f : String → String → List Int → DdlType × List SchemaIssue) (m : EditModel)
    (x y T s : String) (srcCol : Column) (cd : ColumnDef)
    (hy1 : y ≠ "") (hy2 : y ≠ x) (hT : T ≠ "")
    (hs : lookupA m.toSourceCols x = some s)
    (hsc : lookupA m.srcColDefs s = some srcCol)
    (hcd : lookupA m.sp.ColDefs x = some cd) :
    lookupA (applyColUpdate f m x ⟨false, y, "", "", T⟩).toSourceCols y = some s ∧
    lookupA (applyColUpdate f m x ⟨false, y, "", "", T⟩).sp.ColDefs y =
      some { Name := y, T := (updateTypeResult f srcCol T).1,
             NotNull := cd.NotNull, Comment := cd.Comment } ∧
    (0 < (updateTypeResult f srcCol T).2.length →
      lookupA (applyColUpdate f m x ⟨false, y, "", "", T⟩).issues srcCol.Name =
        some (updateTypeResult f srcCol T).2) ∧
    ((updateTypeResult f srcCol T).2.length = 0 →
      (applyColUpdate f m x ⟨false, y, "", "", T⟩).issues = m.issues) := by
  have happ : applyColUpdate f m x ⟨false, y, "", "", T⟩ =
      updateType f (renameColumn m y x) T y := by
    simp [applyColUpdate, hy1, hy2, hT]
  have hm1ts : (renameColumn m y x).toSourceCols =
      eraseA (insertA m.toSourceCols y (getA m.toSourceCols x "")) x := rfl
  have hm1sd : (renameColumn m y x).srcColDefs = m.srcColDefs := rfl
  have hm1iss : (renameColumn m y x).issues = m.issues := rfl
  have hm1cd : (renameColumn m y x).sp.ColDefs =
      eraseA (insertA m.sp.ColDefs y ⟨y, cd.T, cd.NotNull, cd.Comment⟩) x := by
    simp [renameColumn, hcd]
  have hgetx : getA m.toSourceCols x "" = s := by
    rw [getA, hs, Option.getD_some]
  have hlup : lookupA (renameColumn m y x).toSourceCols y = some s := by
    rw [hm1ts, hgetx, lookupA_eraseA, if_neg hy2, lookupA_insertA, if_pos rfl]
  obtain ⟨hts, htp, hsy, hsd, hsp, hiss⟩ := updateType_fields f (renameColumn m y x) T y
  have hsrc : updateTypeSrcCol (renameColumn m y x) y = srcCol := by
    unfold updateTypeSrcCol getA
    rw [hlup, Option.getD_some, hm1sd, hsc, Option.getD_some]
  rw [hsrc] at hiss
  have hdef : updateTypeNewDef f (renameColumn m y x) T y =
      { Name := y, T := (updateTypeResult f srcCol T).1,
        NotNull := cd.NotNull, Comment := cd.Comment } := by
    unfold updateTypeNewDef
    rw [hsrc]
    have : getA (renameColumn m y x).sp.ColDefs y default =
        ⟨y, cd.T, cd.NotNull, cd.Comment⟩ := by
      rw [hm1cd, getA, lookupA_eraseA, if_neg hy2, lookupA_insertA, if_pos rfl, Option.getD_some]
    rw [this]
  refine ⟨?_, ?_, ?_, ?_⟩
  · rw [happ, hts, hlup]
  · rw [happ]
    have hcd2 : (updateType f (renameColumn m y x) T y).sp.ColDefs =
        insertA (renameColumn m y x).sp.ColDefs y (updateTypeNewDef f (renameColumn m y x) T y) := by
      rw [hsp]
    rw [hcd2, lookupA_insertA, if_pos rfl, hdef]
  · intro hpos
    rw [happ, hiss, if_pos hpos, hm1iss, lookupA_insertA, if_pos rfl]
  · intro hzero
    rw [happ, hiss, if_neg (by omega), hm1iss]

theorem retype_uses_source_type_witness :
    lookupA (applyColUpdate trivialMapper idemModelEx "c"
        ⟨false, "d", "", "", "STRING"⟩).toSourceCols "d" = some "c0" :=
  (retype_uses_source_type trivialMapper idemModelEx "c" "d" "STRING" "c0"
    ⟨"c0", ⟨"bigint", [], []⟩, false, false, default⟩ ⟨"c", ⟨"INT64", 0, false⟩, false, ""⟩
    (by decide) (by decide) (by decide) (by decide) (by decide) (by decide)).1

/-! ### The data conversion pipeline (C3, C5, C6, C9)

`ProcessSQLData` / `ConvertSQLRow` from the postgres data-conversion file.
The leaf value converters (`cvtSQLArray` / `cvtSQLScalar`) dispatch on value
representations produced by the database driver and delegate to conversion
helpers (`convBool`, `convArray`, ...) defined outside the given sources, so
the embedding abstracts them as the function parameters `cvtArr` / `cvtScal`
over an abstract driver value type `U` and an abstract payload type `β` for
converted non-integer Spanner values: every theorem below quantifies over
them.  A driver row is a `List (Option U)`, where `none` is SQL NULL. -/

/-- `schema.Table` (the fields the data pipeline reads). -/
structure SrcTableSchema where
  Name : String
  ColDefs : List (String × Column)
  deriving DecidableEq

instance : Inhabited SrcTableSchema := ⟨⟨"", []⟩⟩

/-- A converted Spanner value: the synthetic primary key appends `int64`
values (`i64`); all other converted values are abstract payloads. -/
inductive SpVal (β : Type) where
  | i64 (x : Int)
  | other (b : β)
  deriving DecidableEq

instance {β : Type} [Inhabited β] : Inhabited (SpVal β) := ⟨SpVal.i64 0⟩

/-- The column loop of ConvertSQLRow (`for i := range srcCols`): resolve both
column definitions (an unresolvable column fails the whole row), skip NULL
values entirely, convert non-null values by array/scalar dispatch on the
Spanner column's type (any conversion error fails the whole row), and
otherwise accumulate the column name and converted value in order.
The Go code indexes `spCols[i]` and `srcVals[i]` under the documented
assumption that the three slices have equal length; the embedding recurses
over the three lists in lockstep. -/
def convertRowCols {U β : Type}
    (cvtArr cvtScal : Column → ColumnDef → U → Except String (SpVal β))
    (srcTable : String) (srcSchema : SrcTableSchema) (spSchema : CreateTable) :
    List String → List String → List (Option U) →
    Except String (List String × List (SpVal β))
  | [], _, _ => .ok ([], [])
  | _ :: _, [], _ => .ok ([], [])
  | _ :: _, _ :: _, [] => .ok ([], [])
  | srcCol :: srcRest, spCol :: spRest, v :: vRest =>
    match lookupA srcSchema.ColDefs srcCol, lookupA spSchema.ColDefs spCol with
    | some srcCd, some spCd =>
      match v with
      | none => convertRowCols cvtArr cvtScal srcTable srcSchema spSchema srcRest spRest vRest
      | some val =>
        match (if spCd.T.IsArray then cvtArr srcCd spCd val else cvtScal srcCd spCd val) with
        | .error e =>
          .error ("cannot convert sql data for column " ++ srcCol ++ " of table " ++ srcTable ++ ": " ++ e)
        | .ok spVal =>
          match convertRowCols cvtArr cvtScal srcTable srcSchema spSchema srcRest spRest vRest with
          | .error e2 => .error e2
          | .ok (cs, vs) => .ok (srcCol :: cs, spVal :: vs)
    | _, _ =>
      .error ("data conversion: cannot find schema for column " ++ srcCol ++ " of table " ++ srcTable)

/-- ConvertSQLRow: run the column loop, and if the target table has a
synthetic primary key, append its column name and the bit-reversed current
sequence value (as int64), then increment the sequence (int64 increment) and
store it back.  On error Go returns `nil, nil, err`: the `Except.error`
constructor carries no partial column/value lists. -/
def ConvertSQLRow {U β : Type}
    (cvtArr cvtScal : Column → ColumnDef → U → Except String (SpVal β))
    (synth : List (String × SyntheticPKey)) (srcTable : String) (srcCols : List String)
    (srcSchema : SrcTableSchema) (spTable : String) (spCols : List String)
    (spSchema : CreateTable) (srcVals : List (Option U)) :
    Except String (List String × List (SpVal β) × List (String × SyntheticPKey)) :=
  match convertRowCols cvtArr cvtScal srcTable srcSchema spSchema srcCols spCols srcVals with
  | .error e => .error e
  | .ok (cs, vs) =>
    match lookupA synth spTable with
    | some aux =>
      .ok (cs ++ [aux.Col],
        vs ++ [SpVal.i64 (int64OfUInt64 (reverse64 (uint64OfInt aux.Sequence)))],
        insertA synth spTable ⟨aux.Col, int64Add aux.Sequence 1⟩)
    | none => .ok (cs, vs, synth)

/-- valsToStrings: NULL prints as "NULL", other values through the driver's
string rendering (`fmt.Sprintf("%v", ...)`, abstracted as `showU`). -/
def valsToStrings {U : Type} (showU : U → String) (vals : List (Option U)) : List String :=
  vals.map (fun v => match v with | none => "NULL" | some u => showU u)

/-- The slice of `internal.Conv` that ProcessSQLData reads and writes:
row statistics, bad-row samples, the unexpected-condition report count, the
synthetic-key table and the rows written to the output sink. -/
structure DataConv (β : Type) where
  statsRows : List (String × Int)
  statsBadRows : List (String × Int)
  badSamples : List (String × List String × List String)
  unexpectedCount : Nat
  synth : List (String × SyntheticPKey)
  written : List (String × String × List String × List (SpVal β))
  deriving DecidableEq

instance {β : Type} : Inhabited (DataConv β) := ⟨⟨[], [], [], 0, [], []⟩⟩

/-- Modelled from the spec: `conv.Unexpected` (internal package, not under
src/) reports an unexpected condition; modelled as a report counter. -/
def convUnexpected {β : Type} (conv : DataConv β) : DataConv β :=
  { conv with unexpectedCount := conv.unexpectedCount + 1 }

/-- Modelled from the spec: `conv.StatsAddBadRow` (internal package, not
under src/) counts one rejected row against the source table's bad-row
statistics (in data mode). -/
def statsAddBadRow {β : Type} (conv : DataConv β) (srcTable : String) : DataConv β :=
  let n := int64Add (getA conv.statsBadRows srcTable 0) 1
  { conv with statsBadRows := insertA conv.statsBadRows srcTable n }

/-- Modelled from the spec: `conv.CollectBadRow` (internal package, not
under src/) retains a bounded sample of the rejected row's stringified
values; the retention is modelled, the bound is internal bookkeeping. -/
def collectBadRow {β : Type} (conv : DataConv β) (srcTable : String)
    (srcCols vals : List String) : DataConv β :=
  { conv with badSamples := conv.badSamples ++ [(srcTable, srcCols, vals)] }

/-- Modelled from the spec: `conv.WriteRow` (internal package, not under
src/) emits one converted row to the output sink. -/
def writeRow {β : Type} (conv : DataConv β) (srcTable spTable : String)
    (cols : List String) (vals : List (SpVal β)) : DataConv β :=
  { conv with written := conv.written ++ [(srcTable, spTable, cols, vals)] }

/-- The row loop of ProcessSQLData (lines 107-123): a `none` row is a
`rows.Scan` failure (reported, counted as a bad row, no sample since there is
no data); a row on which ConvertSQLRow fails is reported, counted as one bad
row, its stringified values retained as a sample, and processing continues;
a converted row is written, with the synthetic-key table threaded through. -/
def processRows {U β : Type}
    (cvtArr cvtScal : Column → ColumnDef → U → Except String (SpVal β))
    (showU : U → String) (srcTable : String) (srcCols : List String)
    (srcSchema : SrcTableSchema) (spTable : String) (spCols : List String)
    (spSchema : CreateTable) :
    List (Option (List (Option U))) → DataConv β → DataConv β
  | [], conv => conv
  | row :: rest, conv =>
    match row with
    | none =>
      processRows cvtArr cvtScal showU srcTable srcCols srcSchema spTable spCols spSchema rest
        (statsAddBadRow (convUnexpected conv) srcTable)
    | some v =>
      match ConvertSQLRow cvtArr cvtScal conv.synth srcTable srcCols srcSchema spTable spCols
          spSchema v with
      | .error _ =>
        processRows cvtArr cvtScal showU srcTable srcCols srcSchema spTable spCols spSchema rest
          (collectBadRow (statsAddBadRow (convUnexpected conv) srcTable) srcTable srcCols
            (valsToStrings showU v))
      | .ok (cvtCols, cvtVals, synth2) =>
        processRows cvtArr cvtScal showU srcTable srcCols srcSchema spTable spCols spSchema rest
          (writeRow { conv with synth := synth2 } srcTable spTable cvtCols cvtVals)

/-- buildTableName: drop the "public" schema prefix. -/
def buildTableName (schemaName name : String) : String :=
  if schemaName = "public" then name else schemaName ++ "." ++ name

/-- One source table as ProcessSQLData sees it: its schema/name and the
result of the `SELECT *` query — `none` when `db.Query` fails, otherwise the
`rows.Columns()` result (which can itself fail, err1) and the scanned rows
(`none` entries are `rows.Scan` failures). -/
structure TableStream (U : Type) where
  schemaName : String
  name : String
  queryResult : Option (Except String (List String) × List (Option (List (Option U))))

/-- Go's `x, err := ...` value component: the zero value on error. -/
def exceptD {α : Type} (d : α) : Except String α → α
  | .ok a => a
  | .error _ => d

/-- `err == nil` for a modelled fallible result. -/
def isOkE {α : Type} : Except String α → Bool
  | .ok _ => true
  | .error _ => false

/-- The `conv.Stats.BadRows[srcTable] += conv.Stats.Rows[srcTable]` line run
when a table's columns, Spanner name, column mapping or schemas cannot be
resolved: the table's entire row count is added to its bad-row counter. -/
def tableBadRowsBump {β : Type} (conv : DataConv β) (srcTable : String) : DataConv β :=
  let n := int64Add (getA conv.statsBadRows srcTable 0) (getA conv.statsRows srcTable 0)
  { conv with statsBadRows := insertA conv.statsBadRows srcTable n }

/-- The per-table body of ProcessSQLData's loop (lines 83-124).
`getSpannerTable` and `getSpannerCols` are modelled from the spec:
`internal.GetSpannerTable` / `internal.GetSpannerCols` (internal package,
not under src/) resolve the Spanner table name and column mapping through
the correspondence maps, and can fail (err2 / err3); they enter the model as
abstract resolvers.  A `db.Query` failure only reports and moves on.  A
resolution failure (`err1 != nil || err2 != nil || err3 != nil || !ok1 ||
!ok2`) bumps the table's bad-row counter by its entire row count, reports,
and moves on.  Otherwise the row loop runs. -/
def processOneTable {U β : Type}
    (cvtArr cvtScal : Column → ColumnDef → U → Except String (SpVal β))
    (showU : U → String)
    (getSpannerTable : String → Except String String)
    (getSpannerCols : String → List String → Except String (List String))
    (spSchemaMap : List (String × CreateTable))
    (srcSchemaMap : List (String × SrcTableSchema))
    (conv : DataConv β) (t : TableStream U) : DataConv β :=
  match t.queryResult with
  | none => convUnexpected conv
  | some (colsRes, rows) =>
    let srcTable := buildTableName t.schemaName t.name
    let srcCols := exceptD [] colsRes
    let spTableRes := getSpannerTable srcTable
    let spTable := exceptD "" spTableRes
    let spColsRes := getSpannerCols srcTable srcCols
    let spCols := exceptD [] spColsRes
    let spSchemaOpt := lookupA spSchemaMap spTable
    let srcSchemaOpt := lookupA srcSchemaMap srcTable
    if isOkE colsRes = false ∨ isOkE spTableRes = false ∨ isOkE spColsRes = false ∨
        spSchemaOpt.isNone = true ∨ srcSchemaOpt.isNone = true then
      convUnexpected (tableBadRowsBump conv srcTable)
    else
      processRows cvtArr cvtScal showU srcTable srcCols (srcSchemaOpt.getD default) spTable
        spCols (spSchemaOpt.getD default) rows conv

/-- The table loop of ProcessSQLData: tables are processed sequentially and
a failing table never aborts the remaining ones. -/
def processTables {U β : Type}
    (cvtArr cvtScal : Column → ColumnDef → U → Except String (SpVal β))
    (showU : U → String)
    (getSpannerTable : String → Except String String)
    (getSpannerCols : String → List String → Except String (List String))
    (spSchemaMap : List (String × CreateTable))
    (srcSchemaMap : List (String × SrcTableSchema))
    (conv : DataConv β) : List (TableStream U) → DataConv β
  | [] => conv
  | t :: rest =>
    processTables cvtArr cvtScal showU getSpannerTable getSpannerCols spSchemaMap srcSchemaMap
      (processOneTable cvtArr cvtScal showU getSpannerTable getSpannerCols spSchemaMap
        srcSchemaMap conv t) rest

/-! ### C9: NULL cells are omitted -/

/-- On success, the column loop returns equally long column/value lists, and
every returned column name is a source column whose value was non-null. -/
theorem convertRowCols_ok_spec {U β : Type}
    (cvtArr cvtScal : Column → ColumnDef → U → Except String (SpVal β))
    (srcTable : String) (srcSchema : SrcTableSchema) (spSchema : CreateTable) :
    ∀ (srcCols spCols : List String) (vals : List (Option U)) (cs : List String)
      (vs : List (SpVal β)),
      convertRowCols cvtArr cvtScal srcTable srcSchema spSchema srcCols spCols vals =
        .ok (cs, vs) →
      cs.length = vs.length ∧
      ∀ c ∈ cs, ∃ j, j < srcCols.length ∧ srcCols.getD j "" = c ∧ vals.getD j none ≠ none := by
  intro srcCols
  induction srcCols with
  | nil =>
    intro spCols vals cs vs h
    rw [convertRowCols] at h
    simp only [Except.ok.injEq, Prod.mk.injEq] at h
    obtain ⟨hcs, hvs⟩ := h
    subst hcs
    subst hvs
    exact ⟨rfl, by simp⟩
  | cons a as ih =>
    intro spCols vals cs vs h
    cases spCols with
    | nil =>
      rw [convertRowCols] at h
      simp only [Except.ok.injEq, Prod.mk.injEq] at h
      obtain ⟨hcs, hvs⟩ := h
      subst hcs
      subst hvs
      exact ⟨rfl, by simp⟩
    | cons b bs =>
      cases vals with
      | nil =>
        rw [convertRowCols] at h
        simp only [Except.ok.injEq, Prod.mk.injEq] at h
        obtain ⟨hcs, hvs⟩ := h
        subst hcs
        subst hvs
        exact ⟨rfl, by simp⟩
      | cons v vrest =>
        rw [convertRowCols] at h
        cases hl1 : lookupA srcSchema.ColDefs a with
        | none => rw [hl1] at h; simp at h
        | some srcCd =>
          rw [hl1] at h
          cases hl2 : lookupA spSchema.ColDefs b with
          | none => rw [hl2] at h; simp at h
          | some spCd =>
            rw [hl2] at h
            simp only at h
            cases v with
            | none =>
              obtain ⟨hlen, hmem⟩ := ih bs vrest cs vs h
              refine ⟨hlen, fun c hc => ?_⟩
              obtain ⟨j, hj, hje, hjv⟩ := hmem c hc
              exact ⟨j + 1, by simpa using hj, by simpa using hje, by simpa using hjv⟩
            | some val =>
              simp only at h
              cases hc : (if spCd.T.IsArray then cvtArr srcCd spCd val
                  else cvtScal srcCd spCd val) with
              | error e => rw [hc] at h; simp at h
              | ok spVal =>
                rw [hc] at h
                simp only at h
                cases hr : convertRowCols cvtArr cvtScal srcTable srcSchema spSchema as bs
                    vrest with
                | error e2 => rw [hr] at h; simp at h
                | ok p =>
                  rcases p with ⟨cs', vs'⟩
                  rw [hr] at h
                  simp only [Except.ok.injEq, Prod.mk.injEq] at h
                  obtain ⟨hcs, hvs⟩ := h
                  subst hcs
                  subst hvs
                  obtain ⟨hlen, hmem⟩ := ih bs vrest cs' vs' hr
                  refine ⟨by simpa using hlen, fun c hc2 => ?_⟩
                  rcases List.mem_cons.mp hc2 with rfl | hc3
                  · exact ⟨0, by simp, by simp, by simp⟩
                  · obtain ⟨j, hj, hje, hjv⟩ := hmem c hc3
                    exact ⟨j + 1, by simpa using hj, by simpa using hje, by simpa using hjv⟩

theorem getD_mem_of_lt {α : Type} (l : List α) (d : α) :
    ∀ (n : Nat), n < l.length → l.getD n d ∈ l := by
  induction l with
  | nil => intro n h; simp at h
  | cons a as ih =>
    intro n h
    cases n with
    | zero => simp
    | succ n =>
      rw [List.getD_cons_succ]
      exact List.mem_cons_of_mem a (ih n (by simpa using h))

theorem nodup_getD_inj (l : List String) (hnd : l.Nodup) :
    ∀ i j, i < l.length → j < l.length → l.getD i "" = l.getD j "" → i = j := by
  induction l with
  | nil => intro i j hi _ _; simp at hi
  | cons a as ih =>
    rw [List.nodup_cons] at hnd
    intro i j hi hj he
    cases i with
    | zero =>
      cases j with
      | zero => rfl
      | succ j =>
        exfalso
        rw [List.getD_cons_zero, List.getD_cons_succ] at he
        have hmem : as.getD j "" ∈ as := getD_mem_of_lt as "" j (by simpa using hj)
        rw [← he] at hmem
        exact hnd.1 hmem
    | succ i =>
      cases j with
      | zero =>
        exfalso
        rw [List.getD_cons_succ, List.getD_cons_zero] at he
        have hmem : as.getD i "" ∈ as := getD_mem_of_lt as "" i (by simpa using hi)
        rw [he] at hmem
        exact hnd.1 hmem
      | succ j =>
        have := ih hnd.2 i j (by simpa using hi) (by simpa using hj) (by simpa using he)
        omega

/-- **C9**: in every successfully converted row, a NULL source cell is
omitted entirely (its column name does not appear in the returned column
list, so no value is emitted for it), and the returned column and value
lists always have equal length.  The hypotheses state that the driver's
column names are distinct and that the synthetic-key column (allocated fresh
by schema construction) does not collide with a source column name. -/
theorem null_values_omitted {U β : Type}
    (cvtArr cvtScal : Column → ColumnDef → U → Except String (SpVal β))
    (synth : List (String × SyntheticPKey)) (srcTable : String) (srcCols : List String)
    (srcSchema : SrcTableSchema) (spTable : String) (spCols : List String)
    (spSchema : CreateTable) (vals : List (Option U)) (cs : List String)
    (vs : List (SpVal β)) (synth2 : List (String × SyntheticPKey))
    (hnodup : srcCols.Nodup)
    (hfresh : ∀ aux, lookupA synth spTable = some aux → aux.Col ∉ srcCols)
    (hok : ConvertSQLRow cvtArr cvtScal synth srcTable srcCols srcSchema spTable spCols
      spSchema vals = .ok (cs, vs, synth2)) :
    cs.length = vs.length ∧
    ∀ i, i < srcCols.length → vals.getD i none = none → srcCols.getD i "" ∉ cs := by
  unfold ConvertSQLRow at hok
  cases hl : convertRowCols cvtArr cvtScal srcTable srcSchema spSchema srcCols spCols vals with
  | error e => rw [hl] at hok; simp at hok
  | ok p =>
    rcases p with ⟨cs0, vs0⟩
    rw [hl] at hok
    obtain ⟨hlen0, hmem0⟩ :=
      convertRowCols_ok_spec cvtArr cvtScal srcTable srcSchema spSchema srcCols spCols vals
        cs0 vs0 hl
    cases hs : lookupA synth spTable with
    | none =>
      rw [hs] at hok
      simp only [Except.ok.injEq, Prod.mk.injEq] at hok
      obtain ⟨hcs, hvs, _⟩ := hok
      subst hcs
      subst hvs
      refine ⟨hlen0, fun i hi hnull hmem => ?_⟩
      obtain ⟨j, hj, hje, hjv⟩ := hmem0 _ hmem
      have hij : j = i := nodup_getD_inj srcCols hnodup j i hj hi hje
      rw [hij] at hjv
      exact hjv hnull
    | some aux =>
      rw [hs] at hok
      simp only [Except.ok.injEq, Prod.mk.injEq] at hok
      obtain ⟨hcs, hvs, _⟩ := hok
      subst hcs
      subst hvs
      constructor
      · simp [hlen0]
      · intro i hi hnull hmem
        rcases List.mem_append.mp hmem with hmem1 | hmem2
        · obtain ⟨j, hj, hje, hjv⟩ := hmem0 _ hmem1
          have hij : j = i := nodup_getD_inj srcCols hnodup j i hj hi hje
          rw [hij] at hjv
          exact hjv hnull
        · have hcol : srcCols.getD i "" = aux.Col := by simpa using hmem2
          have hin : srcCols.getD i "" ∈ srcCols := getD_mem_of_lt srcCols "" i hi
          rw [hcol] at hin
          exact hfresh aux hs hin

theorem null_values_omitted_witness :
    (["a"] : List String).length = [SpVal.other ()].length ∧
    ∀ i, i < (["a", "b"] : List String).length →
      ([some (), none] : List (Option Unit)).getD i none = none →
      (["a", "b"] : List String).getD i "" ∉ (["a"] : List String) :=
  null_values_omitted (fun _ _ _ => Except.ok (SpVal.other ()))
    (fun _ _ _ => Except.ok (SpVal.other ())) [] "t" ["a", "b"]
    ⟨"t", [("a", default), ("b", default)]⟩ "T" ["a", "b"]
    { Name := "T", ColNames := ["a", "b"],
      ColDefs := [("a", default), ("b", default)], Pks := [], Fks := [], Parent := "" }
    [some (), none] ["a"] [SpVal.other ()] []
    (by decide) (by intro aux h; cases h) rfl

/-! ### C6: row-level failure atomicity -/

theorem exists_lt_succ_iff (n : Nat) (Q : Nat → Prop) :
    (∃ i, i < n + 1 ∧ Q i) ↔ Q 0 ∨ ∃ i, i < n ∧ Q (i + 1) := by
  constructor
  · rintro ⟨i, hi, hq⟩
    cases i with
    | zero => exact Or.inl hq
    | succ i => exact Or.inr ⟨i, by omega, hq⟩
  · rintro (hq | ⟨i, hi, hq⟩)
    · exact ⟨0, by omega, hq⟩
    · exact ⟨i + 1, by omega, hq⟩

/-- The failure condition of claim C6 at column position `i`: the source or
Spanner column definition is unresolvable, or the value is non-null and its
(array or scalar, by the Spanner column's type) conversion fails. -/
def colBadAt {U β : Type}
    (cvtArr cvtScal : Column → ColumnDef → U → Except String (SpVal β))
    (srcSchema : SrcTableSchema) (spSchema : CreateTable)
    (srcCols spCols : List String) (vals : List (Option U)) (i : Nat) : Prop :=
  (lookupA srcSchema.ColDefs (srcCols.getD i "") = none ∨
    lookupA spSchema.ColDefs (spCols.getD i "") = none) ∨
  (∃ srcCd spCd u, lookupA srcSchema.ColDefs (srcCols.getD i "") = some srcCd ∧
    lookupA spSchema.ColDefs (spCols.getD i "") = some spCd ∧
    vals.getD i none = some u ∧
    ∃ e2, (if spCd.T.IsArray then cvtArr srcCd spCd u else cvtScal srcCd spCd u) =
      .error e2)

theorem colBadAt_succ {U β : Type}
    (cvtArr cvtScal : Column → ColumnDef → U → Except String (SpVal β))
    (srcSchema : SrcTableSchema) (spSchema : CreateTable)
    (a b : String) (v : Option U) (srcCols spCols : List String) (vals : List (Option U))
    (i : Nat) :
    colBadAt cvtArr cvtScal srcSchema spSchema (a :: srcCols) (b :: spCols) (v :: vals)
        (i + 1) ↔
      colBadAt cvtArr cvtScal srcSchema spSchema srcCols spCols vals i := by
  simp [colBadAt]

/-- The column loop fails iff some position satisfies the failure
condition. -/
theorem convertRowCols_error_iff {U β : Type}
    (cvtArr cvtScal : Column → ColumnDef → U → Except String (SpVal β))
    (srcTable : String) (srcSchema : SrcTableSchema) (spSchema : CreateTable) :
    ∀ (srcCols spCols : List String) (vals : List (Option U)),
      spCols.length = srcCols.length → vals.length = srcCols.length →
      ((∃ e, convertRowCols cvtArr cvtScal srcTable srcSchema spSchema srcCols spCols vals =
          .error e) ↔
        ∃ i, i < srcCols.length ∧
          colBadAt cvtArr cvtScal srcSchema spSchema srcCols spCols vals i) := by
  intro srcCols
  induction srcCols with
  | nil =>
    intro spCols vals _ _
    simp [convertRowCols]
  | cons a as ih =>
    intro spCols vals hlen1 hlen2
    cases spCols with
    | nil => simp at hlen1
    | cons b bs =>
      cases vals with
      | nil => simp at hlen2
      | cons v vrest =>
        have hlen1' : bs.length = as.length := by simpa using hlen1
        have hlen2' : vrest.length = as.length := by simpa using hlen2
        have hshift : (∃ i, i < (a :: as).length ∧
            colBadAt cvtArr cvtScal srcSchema spSchema (a :: as) (b :: bs) (v :: vrest) i) ↔
            colBadAt cvtArr cvtScal srcSchema spSchema (a :: as) (b :: bs) (v :: vrest) 0 ∨
            ∃ i, i < as.length ∧ colBadAt cvtArr cvtScal srcSchema spSchema as bs vrest i := by
          rw [List.length_cons, exists_lt_succ_iff]
          constructor
          · rintro (h0 | ⟨i, hi, hq⟩)
            · exact Or.inl h0
            · exact Or.inr ⟨i, hi, (colBadAt_succ _ _ _ _ _ _ _ _ _ _ _).mp hq⟩
          · rintro (h0 | ⟨i, hi, hq⟩)
            · exact Or.inl h0
            · exact Or.inr ⟨i, hi, (colBadAt_succ _ _ _ _ _ _ _ _ _ _ _).mpr hq⟩
        rw [hshift]
        cases hl1 : lookupA srcSchema.ColDefs a with
        | none =>
          apply iff_of_true
          · exact ⟨_, by rw [convertRowCols, hl1]⟩
          · exact Or.inl (Or.inl (Or.inl (by simpa using hl1)))
        | some srcCd =>
          cases hl2 : lookupA spSchema.ColDefs b with
          | none =>
            apply iff_of_true
            · exact ⟨_, by rw [convertRowCols, hl1, hl2]⟩
            · exact Or.inl (Or.inl (Or.inr (by simpa using hl2)))
          | some spCd =>
            have hbad0 : ¬ ((lookupA srcSchema.ColDefs ((a :: as).getD 0 "") = none ∨
                lookupA spSchema.ColDefs ((b :: bs).getD 0 "") = none)) := by
              simp [hl1, hl2]
            cases v with
            | none =>
              have hstep : ∀ e, (convertRowCols cvtArr cvtScal srcTable srcSchema spSchema
                  (a :: as) (b :: bs) (none :: vrest) = .error e) ↔
                  (convertRowCols cvtArr cvtScal srcTable srcSchema spSchema as bs vrest =
                    .error e) := by
                intro e
                rw [convertRowCols, hl1, hl2]
              have hq0 : ¬ colBadAt cvtArr cvtScal srcSchema spSchema (a :: as) (b :: bs)
                  (none :: vrest) 0 := by
                rintro (hbad | ⟨srcCd', spCd', u, _, _, hu, _⟩)
                · exact hbad0 hbad
                · simp at hu
              constructor
              · rintro ⟨e, he⟩
                exact Or.inr ((ih bs vrest hlen1' hlen2').mp ⟨e, (hstep e).mp he⟩)
              · rintro (h0 | hrest)
                · exact absurd h0 hq0
                · obtain ⟨e, he⟩ := (ih bs vrest hlen1' hlen2').mpr hrest
                  exact ⟨e, (hstep e).mpr he⟩
            | some val =>
              cases hcv : (if spCd.T.IsArray then cvtArr srcCd spCd val
                  else cvtScal srcCd spCd val) with
              | error e0 =>
                apply iff_of_true
                · exact ⟨_, by rw [convertRowCols, hl1, hl2]; simp only; rw [hcv]⟩
                · refine Or.inl (Or.inr ⟨srcCd, spCd, val, by simpa using hl1,
                    by simpa using hl2, rfl, e0, hcv⟩)
              | ok spVal =>
                have hq0 : ¬ colBadAt cvtArr cvtScal srcSchema spSchema (a :: as) (b :: bs)
                    (some val :: vrest) 0 := by
                  rintro (hbad | ⟨srcCd', spCd', u, hcd', hpd', hu, e2, he2⟩)
                  · exact hbad0 hbad
                  · rw [List.getD_cons_zero] at hcd' hpd'
                    rw [hl1] at hcd'
                    rw [hl2] at hpd'
                    have h1 := Option.some.inj hcd'
                    have h2 := Option.some.inj hpd'
                    have h3 : u = val := by simpa using hu.symm
                    subst h1
                    subst h2
                    subst h3
                    rw [hcv] at he2
                    cases he2
                cases hr : convertRowCols cvtArr cvtScal srcTable srcSchema spSchema as bs
                    vrest with
                | error e2 =>
                  apply iff_of_true
                  · exact ⟨e2, by rw [convertRowCols, hl1, hl2]; simp only; rw [hcv, hr]⟩
                  · exact Or.inr ((ih bs vrest hlen1' hlen2').mp ⟨e2, hr⟩)
                | ok p =>
                  apply iff_of_false
                  · rintro ⟨e, he⟩
                    rw [convertRowCols, hl1, hl2] at he
                    simp only at he
                    rw [hcv, hr] at he
                    rcases p with ⟨cs', vs'⟩
                    cases he
                  · rintro (h0 | hrest)
                    · exact hq0 h0
                    · obtain ⟨e, he⟩ := (ih bs vrest hlen1' hlen2').mpr hrest
                      rw [hr] at he
                      cases he

/-- **C6**: ConvertSQLRow fails atomically at row granularity: it returns an
error iff some position has an unresolvable source or Spanner column
definition or a non-null value whose scalar/array conversion fails (on error
Go returns `nil, nil, err`: the error constructor carries no partial
output); and the caller's row loop then counts exactly one bad row for the
source table, retains the stringified raw row as a sample, reports the
condition, and continues with the remaining rows. -/
theorem convertSQLRow_row_atomicity {U β : Type}
    (cvtArr cvtScal : Column → ColumnDef → U → Except String (SpVal β))
    (showU : U → String) (srcTable : String) (srcCols : List String)
    (srcSchema : SrcTableSchema) (spTable : String) (spCols : List String)
    (spSchema : CreateTable) :
    (∀ (synth : List (String × SyntheticPKey)) (vals : List (Option U)),
      spCols.length = srcCols.length → vals.length = srcCols.length →
      ((∃ e, ConvertSQLRow cvtArr cvtScal synth srcTable srcCols srcSchema spTable spCols
          spSchema vals = .error e) ↔
        ∃ i, i < srcCols.length ∧
          colBadAt cvtArr cvtScal srcSchema spSchema srcCols spCols vals i)) ∧
    (∀ (conv : DataConv β) (vals : List (Option U))
        (rest : List (Option (List (Option U)))),
      (∃ e, ConvertSQLRow cvtArr cvtScal conv.synth srcTable srcCols srcSchema spTable spCols
        spSchema vals = .error e) →
      processRows cvtArr cvtScal showU srcTable srcCols srcSchema spTable spCols spSchema
          (some vals :: rest) conv =
        processRows cvtArr cvtScal showU srcTable srcCols srcSchema spTable spCols spSchema
          rest
          (collectBadRow (statsAddBadRow (convUnexpected conv) srcTable) srcTable srcCols
            (valsToStrings showU vals))) := by
  constructor
  · intro synth vals h1 h2
    rw [← convertRowCols_error_iff cvtArr cvtScal srcTable srcSchema spSchema srcCols spCols
      vals h1 h2]
    unfold ConvertSQLRow
    cases hl : convertRowCols cvtArr cvtScal srcTable srcSchema spSchema srcCols spCols
        vals with
    | error e => simp
    | ok p =>
      rcases p with ⟨cs, vs⟩
      cases hs : lookupA synth spTable <;> simp [hs]
  · intro conv vals rest he
    obtain ⟨e, he⟩ := he
    simp only [processRows, he]

def cvtUnit : Column → ColumnDef → Unit → Except String (SpVal Unit) :=
  fun _ _ _ => Except.ok (SpVal.other ())

def showUnit : Unit → String := fun _ => "NULLABLE"

def spTableEx : CreateTable :=
  { Name := "T", ColNames := ["a"], ColDefs := [], Pks := [], Fks := [], Parent := "" }

theorem convertSQLRow_row_atomicity_witness :
    processRows cvtUnit cvtUnit showUnit "t" ["a"] ⟨"t", []⟩ "T" ["a"] spTableEx
        [some [some ()]] (default : DataConv Unit) =
      processRows cvtUnit cvtUnit showUnit "t" ["a"] ⟨"t", []⟩ "T" ["a"] spTableEx []
        (collectBadRow (statsAddBadRow (convUnexpected (default : DataConv Unit)) "t") "t"
          ["a"] (valsToStrings showUnit [some ()])) :=
  (convertSQLRow_row_atomicity cvtUnit cvtUnit showUnit "t" ["a"] ⟨"t", []⟩ "T" ["a"]
    spTableEx).2 default [some ()] [] ⟨_, rfl⟩

/-! ### C5: table-level failure handling -/

/-- **C5 (amended)**: tables are processed sequentially and a failing table
never aborts the remaining ones; a `db.Query` failure is reported and leaves
all statistics (including the bad-row counters) unchanged; but a resolution
failure (columns, Spanner table name, column mapping, or either schema
entry) does NOT skip the table's bad-row accounting — it adds the table's
entire row count to its bad-row counter, then reports and continues. -/
theorem tableFailure_handling_amended {U β : Type}
    (cvtArr cvtScal : Column → ColumnDef → U → Except String (SpVal β))
    (showU : U → String)
    (gst : String → Except String String)
    (gsc : String → List String → Except String (List String))
    (spMap : List (String × CreateTable)) (srcMap : List (String × SrcTableSchema)) :
    (∀ (conv : DataConv β) (t : TableStream U) (rest : List (TableStream U)),
      processTables cvtArr cvtScal showU gst gsc spMap srcMap conv (t :: rest) =
        processTables cvtArr cvtScal showU gst gsc spMap srcMap
          (processOneTable cvtArr cvtScal showU gst gsc spMap srcMap conv t) rest) ∧
    (∀ (conv : DataConv β) (t : TableStream U), t.queryResult = none →
      processOneTable cvtArr cvtScal showU gst gsc spMap srcMap conv t =
        convUnexpected conv ∧
      (processOneTable cvtArr cvtScal showU gst gsc spMap srcMap conv t).statsBadRows =
        conv.statsBadRows) ∧
    (∀ (conv : DataConv β) (t : TableStream U) (colsRes : Except String (List String))
        (rows : List (Option (List (Option U)))),
      t.queryResult = some (colsRes, rows) →
      (isOkE colsRes = false ∨
       isOkE (gst (buildTableName t.schemaName t.name)) = false ∨
       isOkE (gsc (buildTableName t.schemaName t.name) (exceptD [] colsRes)) = false ∨
       (lookupA spMap (exceptD "" (gst (buildTableName t.schemaName t.name)))).isNone = true ∨
       (lookupA srcMap (buildTableName t.schemaName t.name)).isNone = true) →
      processOneTable cvtArr cvtScal showU gst gsc spMap srcMap conv t =
        convUnexpected (tableBadRowsBump conv (buildTableName t.schemaName t.name))) := by
  refine ⟨?_, ?_, ?_⟩
  · intro conv t rest
    rfl
  · intro conv t hq
    unfold processOneTable
    rw [hq]
    exact ⟨rfl, rfl⟩
  · intro conv t colsRes rows hq hfail
    unfold processOneTable
    rw [hq]
    simp only
    rw [if_pos hfail]

/-- A table whose schema mapping cannot be resolved, with 5 source rows. -/
def tEnvEx : TableStream Unit := ⟨"public", "tbl", some (Except.ok ["a"], [])⟩

def gstFail : String → Except String String := fun _ => Except.error "no mapping"

def gscOk : String → List String → Except String (List String) := fun _ cs => Except.ok cs

def convEx5 : DataConv Unit :=
  { statsRows := [("tbl", 5)], statsBadRows := [], badSamples := [], unexpectedCount := 0,
    synth := [], written := [] }

/-- **C5 counterexample**: the claim says a table-level resolution failure
leaves the table's bad-row counters unchanged; in fact the code adds the
table's entire row count (here 5) to its bad-row counter. -/
theorem resolutionFailure_changes_badRows :
    getA (processOneTable cvtUnit cvtUnit showUnit gstFail gscOk [] [] convEx5
        tEnvEx).statsBadRows "tbl" 0 = 5 ∧
    getA convEx5.statsBadRows "tbl" 0 = 0 := by
  decide

theorem tableFailure_handling_amended_witness :
    processOneTable cvtUnit cvtUnit showUnit gstFail gscOk [] [] convEx5 tEnvEx =
      convUnexpected (tableBadRowsBump convEx5 "tbl") :=
  (tableFailure_handling_amended cvtUnit cvtUnit showUnit gstFail gscOk [] []).2.2 convEx5
    tEnvEx (Except.ok ["a"]) [] rfl (by decide)

/-! ### C3: synthetic-key sequence behaviour -/

theorem uint64OfInt_natCast (k : Nat) (h : k < 2 ^ 64) : uint64OfInt (k : Int) = k := by
  unfold uint64OfInt
  rw [Int.emod_eq_of_lt (by positivity) (by exact_mod_cast h)]
  simp

/-- Each successful ConvertSQLRow call on a table with a synthetic key
appends the key column and the bit-reversed current sequence value (as
int64), and stores back the sequence incremented by one. -/
theorem convertSQLRow_synth_append {U β : Type}
    (cvtArr cvtScal : Column → ColumnDef → U → Except String (SpVal β))
    (synth : List (String × SyntheticPKey)) (aux : SyntheticPKey) (srcTable : String)
    (srcCols : List String) (srcSchema : SrcTableSchema) (spTable : String)
    (spCols : List String) (spSchema : CreateTable) (vals : List (Option U))
    (cs : List String) (vs : List (SpVal β)) (synth2 : List (String × SyntheticPKey))
    (haux : lookupA synth spTable = some aux)
    (hok : ConvertSQLRow cvtArr cvtScal synth srcTable srcCols srcSchema spTable spCols
      spSchema vals = .ok (cs, vs, synth2)) :
    ∃ cs0 vs0, cs = cs0 ++ [aux.Col] ∧
      vs = vs0 ++ [SpVal.i64 (int64OfUInt64 (reverse64 (uint64OfInt aux.Sequence)))] ∧
      synth2 = insertA synth spTable ⟨aux.Col, int64Add aux.Sequence 1⟩ := by
  unfold ConvertSQLRow at hok
  cases hl : convertRowCols cvtArr cvtScal srcTable srcSchema spSchema srcCols spCols
      vals with
  | error e => rw [hl] at hok; cases hok
  | ok p =>
    rcases p with ⟨cs0, vs0⟩
    rw [hl, haux] at hok
    simp only [Except.ok.injEq, Prod.mk.injEq] at hok
    obtain ⟨h1, h2, h3⟩ := hok
    exact ⟨cs0, vs0, h1.symm, h2.symm, h3.symm⟩

/-- Running the row loop from sequence value `s`: the successfully converted
rows (in order) receive the sequence values `s, s+1, ...`, the counter never
resets, and the final stored counter is `s` plus the number of written
rows. -/
theorem processRows_synth_run {U β : Type}
    (cvtArr cvtScal : Column → ColumnDef → U → Except String (SpVal β))
    (showU : U → String) (srcTable : String) (srcCols : List String)
    (srcSchema : SrcTableSchema) (spTable : String) (spCols : List String)
    (spSchema : CreateTable) (g : String) :
    ∀ (rows : List (Option (List (Option U)))) (conv : DataConv β) (s : Int),
      lookupA conv.synth spTable = some ⟨g, s⟩ →
      0 ≤ s → s + rows.length < 2 ^ 63 →
      ∃ W, (processRows cvtArr cvtScal showU srcTable srcCols srcSchema spTable spCols
          spSchema rows conv).written = conv.written ++ W ∧
        W.length ≤ rows.length ∧
        lookupA (processRows cvtArr cvtScal showU srcTable srcCols srcSchema spTable spCols
          spSchema rows conv).synth spTable = some ⟨g, s + W.length⟩ ∧
        ∀ k, k < W.length → ∃ cs0 vs0,
          W.getD k default = (srcTable, spTable, cs0 ++ [g],
            vs0 ++ [SpVal.i64 (int64OfUInt64 (reverse64 (uint64OfInt (s + k))))]) := by
  intro rows
  induction rows with
  | nil =>
    intro conv s hsy h0 hlt
    refine ⟨[], by simp [processRows], by simp, ?_, by simp⟩
    rw [processRows]
    simpa using hsy
  | cons row rest ih =>
    intro conv s hsy h0 hlt
    have hlt' : s + (rest.length : Int) < 2 ^ 63 := by
      rw [List.length_cons] at hlt
      push_cast at hlt ⊢
      omega
    cases row with
    | none =>
      obtain ⟨W, hw, hwl, hsy2, hk⟩ :=
        ih (statsAddBadRow (convUnexpected conv) srcTable) s hsy h0 hlt'
      refine ⟨W, ?_, ?_, ?_, hk⟩
      · rw [processRows]
        exact hw
      · simp only [List.length_cons]
        omega
      · rw [processRows]
        exact hsy2
    | some v =>
      cases hcv : ConvertSQLRow cvtArr cvtScal conv.synth srcTable srcCols srcSchema spTable
          spCols spSchema v with
      | error e =>
        obtain ⟨W, hw, hwl, hsy2, hk⟩ :=
          ih (collectBadRow (statsAddBadRow (convUnexpected conv) srcTable) srcTable srcCols
            (valsToStrings showU v)) s hsy h0 hlt'
        have hred : processRows cvtArr cvtScal showU srcTable srcCols srcSchema spTable
            spCols spSchema (some v :: rest) conv =
            processRows cvtArr cvtScal showU srcTable srcCols srcSchema spTable spCols
              spSchema rest
              (collectBadRow (statsAddBadRow (convUnexpected conv) srcTable) srcTable srcCols
                (valsToStrings showU v)) := by
          simp only [processRows, hcv]
        refine ⟨W, ?_, ?_, ?_, hk⟩
        · rw [hred]
          exact hw
        · simp only [List.length_cons]
          omega
        · rw [hred]
          exact hsy2
      | ok triple =>
        rcases triple with ⟨cs, vs, synth2⟩
        obtain ⟨cs0, vs0, hcs, hvs, hsyn2⟩ :=
          convertSQLRow_synth_append cvtArr cvtScal conv.synth ⟨g, s⟩ srcTable srcCols
            srcSchema spTable spCols spSchema v cs vs synth2 hsy hcv
        have hs1 : int64Add s 1 = s + 1 := by
          apply int64Add_one_of_small s h0
          rw [List.length_cons] at hlt
          push_cast at hlt
          omega
        have hsy2 : lookupA (writeRow { conv with synth := synth2 } srcTable spTable cs
            vs).synth spTable = some ⟨g, s + 1⟩ := by
          show lookupA synth2 spTable = _
          rw [hsyn2, lookupA_insertA, if_pos rfl, hs1]
        obtain ⟨W', hw', hwl', hsy3, hk'⟩ :=
          ih (writeRow { conv with synth := synth2 } srcTable spTable cs vs) (s + 1) hsy2
            (by omega) (by rw [List.length_cons] at hlt; push_cast at hlt ⊢; omega)
        have hred : processRows cvtArr cvtScal showU srcTable srcCols srcSchema spTable
            spCols spSchema (some v :: rest) conv =
            processRows cvtArr cvtScal showU srcTable srcCols srcSchema spTable spCols
              spSchema rest (writeRow { conv with synth := synth2 } srcTable spTable cs vs) := by
          simp only [processRows, hcv]
        refine ⟨(srcTable, spTable, cs, vs) :: W', ?_, ?_, ?_, ?_⟩
        · rw [hred, hw']
          show (conv.written ++ [(srcTable, spTable, cs, vs)]) ++ W' = _
          simp
        · simp only [List.length_cons]
          omega
        · rw [hred, hsy3]
          simp only [Option.some.injEq, SyntheticPKey.mk.injEq, List.length_cons]
          refine ⟨by trivial, ?_⟩
          push_cast
          ring
        · intro k hk2
          cases k with
          | zero =>
            refine ⟨cs0, vs0, ?_⟩
            simp only [List.getD_cons_zero, Nat.cast_zero, add_zero]
            rw [hcs, hvs]
          | succ k =>
            obtain ⟨cs0', vs0', he⟩ := hk' k (by simpa using hk2)
            refine ⟨cs0', vs0', ?_⟩
            rw [List.getD_cons_succ]
            rw [show (s + ((k : Nat) + 1 : Nat) : Int) = s + 1 + k by push_cast; ring]
            exact he

set_option maxRecDepth 8192 in
set_option maxHeartbeats 1600000 in
/-- **C3**: for a target table with a synthetic primary key, every
successful ConvertSQLRow call appends the key column name and the
bit-reversed current sequence value (as int64) and then increments the
sequence by one; consequently, a run of the row loop that starts with
sequence value 0 assigns the pre-reversal values 0, 1, ..., N-1 (in order,
strictly increasing, never reset) to the N successfully written rows, the
final counter is N, and the N bit-reversed int64 values are pairwise
distinct. -/
theorem syntheticPKey_sequence_correct {U β : Type}
    (cvtArr cvtScal : Column → ColumnDef → U → Except String (SpVal β))
    (showU : U → String) (srcTable : String) (srcCols : List String)
    (srcSchema : SrcTableSchema) (spTable : String) (spCols : List String)
    (spSchema : CreateTable) (g : String) :
    (∀ (synth : List (String × SyntheticPKey)) (aux : SyntheticPKey)
        (vals : List (Option U)) (cs : List String) (vs : List (SpVal β))
        (synth2 : List (String × SyntheticPKey)),
      lookupA synth spTable = some aux →
      ConvertSQLRow cvtArr cvtScal synth srcTable srcCols srcSchema spTable spCols spSchema
        vals = .ok (cs, vs, synth2) →
      ∃ cs0 vs0, cs = cs0 ++ [aux.Col] ∧
        vs = vs0 ++ [SpVal.i64 (int64OfUInt64 (reverse64 (uint64OfInt aux.Sequence)))] ∧
        synth2 = insertA synth spTable ⟨aux.Col, int64Add aux.Sequence 1⟩) ∧
    (∀ (rows : List (Option (List (Option U)))) (conv : DataConv β),
      conv.written = [] →
      lookupA conv.synth spTable = some ⟨g, 0⟩ →
      ((rows.length : Int) < 2 ^ 63) →
      ∃ W, (processRows cvtArr cvtScal showU srcTable srcCols srcSchema spTable spCols
          spSchema rows conv).written = W ∧
        W.length ≤ rows.length ∧
        lookupA (processRows cvtArr cvtScal showU srcTable srcCols srcSchema spTable spCols
          spSchema rows conv).synth spTable = some ⟨g, (W.length : Int)⟩ ∧
        (∀ k, k < W.length → ∃ cs0 vs0,
          W.getD k default = (srcTable, spTable, cs0 ++ [g],
            vs0 ++ [SpVal.i64 (int64OfUInt64 (reverse64 k))])) ∧
        ((List.range W.length).map
          (fun k => (SpVal.i64 (int64OfUInt64 (reverse64 k)) : SpVal β))).Nodup) := by
  constructor
  · intro synth aux vals cs vs synth2 haux hok
    exact convertSQLRow_synth_append cvtArr cvtScal synth aux srcTable srcCols srcSchema
      spTable spCols spSchema vals cs vs synth2 haux hok
  · intro rows conv hempty hsy hbound
    have hlenN : rows.length < 2 ^ 63 := by exact_mod_cast hbound
    obtain ⟨W, hw, hwl, hsy2, hk⟩ :=
      processRows_synth_run cvtArr cvtScal showU srcTable srcCols srcSchema spTable spCols
        spSchema g rows conv 0 hsy le_rfl (by rw [zero_add]; exact hbound)
    refine ⟨W, by rw [hw, hempty]; simp, hwl, by rw [hsy2, zero_add], ?_, ?_⟩
    · intro k hk2
      obtain ⟨cs0, vs0, he⟩ := hk k hk2
      refine ⟨cs0, vs0, ?_⟩
      rw [he]
      have hk64 : k < 2 ^ 64 :=
        lt_trans (lt_trans (lt_of_lt_of_le hk2 hwl) hlenN) (by norm_num)
      rw [show ((0 : Int) + (k : Nat)) = ((k : Nat) : Int) by ring, uint64OfInt_natCast k hk64]
    · have hinj : ∀ i j, i < W.length → j < W.length →
          (SpVal.i64 (int64OfUInt64 (reverse64 i)) : SpVal β) =
            SpVal.i64 (int64OfUInt64 (reverse64 j)) → i = j := by
        intro i j hi hj he
        have hi64 : i < 2 ^ 64 :=
          lt_trans (lt_trans (lt_of_lt_of_le hi hwl) hlenN) (by norm_num)
        have hj64 : j < 2 ^ 64 :=
          lt_trans (lt_trans (lt_of_lt_of_le hj hwl) hlenN) (by norm_num)
        have h1 : int64OfUInt64 (reverse64 i) = int64OfUInt64 (reverse64 j) := by
          injection he
        have h2 : reverse64 i = reverse64 j :=
          int64OfUInt64_inj _ _ (reverse64_lt i) (reverse64_lt j) h1
        exact reverse64_inj i j hi64 hj64 h2
      exact (List.nodup_range W.length).map_on
        (fun x hx y hy h =>
          hinj x y (by simpa using List.mem_range.mp hx) (by simpa using List.mem_range.mp hy) h)

theorem syntheticPKey_sequence_correct_witness :
    ∃ cs0 vs0, (["sid"] : List String) = cs0 ++ ["sid"] ∧
      ([SpVal.i64 (int64OfUInt64 (reverse64 (uint64OfInt 0)))] : List (SpVal Unit)) =
        vs0 ++ [SpVal.i64 (int64OfUInt64 (reverse64 (uint64OfInt 0)))] ∧
      insertA ([("T", ⟨"sid", 0⟩)] : List (String × SyntheticPKey)) "T"
          ⟨"sid", int64Add 0 1⟩ =
        insertA [("T", ⟨"sid", 0⟩)] "T" ⟨"sid", int64Add 0 1⟩ :=
  (syntheticPKey_sequence_correct cvtUnit cvtUnit showUnit "t" [] ⟨"t", []⟩ "T" []
    spTableEx "sid").1 [("T", ⟨"sid", 0⟩)] ⟨"sid", 0⟩ [] ["sid"]
    [SpVal.i64 (int64OfUInt64 (reverse64 (uint64OfInt 0)))]
    (insertA [("T", ⟨"sid", 0⟩)] "T" ⟨"sid", int64Add 0 1⟩) rfl rfl
